import Mathlib

set_option linter.unusedVariables false

/-!
Shallow embedding of the syncstore document/ACL engine
(src/syncstore: types.rs, store.rs, backend/sqlite.rs, utils/hpke.rs,
router/hpke_wrapper.rs).  Stored JSON bodies are kept as parsed values: the
source serialises with serde_json on write and re-parses on read, and every
stored body text originates from a serialisation, so the round trip is the
identity on well-formed state.  Timestamps are abstract instants (Nat).
-/

namespace Syncstore

/-- JSON values (model of serde_json::Value; numbers restricted to integers,
which is all the embedded claims need). -/
inductive JsonValue where
  | null
  | bool (b : Bool)
  | num (n : Int)
  | str (s : String)
  | arr (items : List JsonValue)
  | obj (fields : List (String × JsonValue))

/-- Model of serde_json Value::get for object keys. -/
def JsonValue.get (v : JsonValue) (key : String) : Option JsonValue :=
  match v with
  | .obj fields => (fields.find? (fun f => f.1 = key)).map (fun f => f.2)
  | _ => none

/-- Model of serde_json Value::as_str. -/
def JsonValue.asStr (v : JsonValue) : Option String :=
  match v with
  | .str s => some s
  | _ => none

mutual

/-- Model of serde_json::to_string on a value. -/
def JsonValue.render : JsonValue → String
  | .null => "null"
  | .bool true => "true"
  | .bool false => "false"
  | .num n => toString n
  | .str s => "\x22" ++ s ++ "\x22"
  | .arr items => "[" ++ JsonValue.renderListAux items ++ "]"
  | .obj fields => "\x7b" ++ JsonValue.renderFieldsAux fields ++ "\x7d"

/-- Comma-separated rendering of array elements. -/
def JsonValue.renderListAux : List JsonValue → String
  | [] => ""
  | [v] => JsonValue.render v
  | v :: rest => JsonValue.render v ++ "," ++ JsonValue.renderListAux rest

/-- Comma-separated rendering of object fields. -/
def JsonValue.renderFieldsAux : List (String × JsonValue) → String
  | [] => ""
  | [(k, v)] => "\x22" ++ k ++ "\x22:" ++ JsonValue.render v
  | (k, v) :: rest =>
      "\x22" ++ k ++ "\x22:" ++ JsonValue.render v ++ "," ++ JsonValue.renderFieldsAux rest

end

/-- Error kinds carried by the core (model of error.rs StoreError). -/
inductive StoreError where
  | Backend (msg : String)
  | NotFound (msg : String)
  | Validation (msg : String)
  | Io (msg : String)
  | PermissionDenied
deriving DecidableEq

/-- Permission bitmask over a 6-bit domain (model of the bitflags ACLMask in
types.rs; values are the declared u8 constants). -/
abbrev ACLMask := Nat

/-- Bit constant READ_ONLY = 0b000001. -/
def READ_ONLY : ACLMask := 1

/-- Bit constant UPDATE_ONLY = 0b000010. -/
def UPDATE_ONLY : ACLMask := 2

/-- Bit constant DELETE_ONLY = 0b000100. -/
def DELETE_ONLY : ACLMask := 4

/-- Bit constant APPEND_3_BELOW = 0b001000. -/
def APPEND_3_BELOW : ACLMask := 8

/-- Bit constant APPEND_2_BELOW = 0b011000. -/
def APPEND_2_BELOW : ACLMask := 24

/-- Bit constant APPEND_1_BELOW = 0b111000. -/
def APPEND_1_BELOW : ACLMask := 56

/-- Bit constant FULL_ACCESS = 0b111111. -/
def FULL_ACCESS : ACLMask := 63

/-- bitflags contains: every bit of the needed mask is present. -/
def maskContains (a needed : ACLMask) : Bool := Nat.land a needed = needed

/-- bitflags difference a - b (clear in a every bit of b; the masks live in
the 6-bit domain, so complement of b is xor with FULL_ACCESS). -/
def maskDiff (a b : ACLMask) : ACLMask := Nat.land a (Nat.xor FULL_ACCESS b)

/-- Model of ACLMask::upgrade_for_parent (types.rs).  The source panics on an
append-bit combination that is none of the three named constants; that branch
is unreachable from the seven access levels and is modelled as none. -/
def upgrade_for_parent (m : ACLMask) : Option ACLMask :=
  let current := Nat.land m APPEND_1_BELOW
  if current = 0 then some m
  else if current = APPEND_1_BELOW then some (Nat.lor (maskDiff m current) APPEND_2_BELOW)
  else if current = APPEND_2_BELOW then some (Nat.lor (maskDiff m current) APPEND_3_BELOW)
  else if current = APPEND_3_BELOW then none
  else none

/-- The seven nominal access levels (types.rs AccessLevel). -/
inductive AccessLevel where
  | Read
  | ReadAppend1
  | ReadAppend2
  | ReadAppend3
  | Update
  | Write
  | FullAccess
deriving DecidableEq

/-- Model of AccessLevel::to_string (the strings stored in the database). -/
def levelToString : AccessLevel → String
  | .Read => "read"
  | .ReadAppend1 => "read_append1"
  | .ReadAppend2 => "read_append2"
  | .ReadAppend3 => "read_append3"
  | .Update => "update"
  | .Write => "write"
  | .FullAccess => "full_access"

/-- Model of AccessLevel::from_str. -/
def levelFromStr (s : String) : Except StoreError AccessLevel :=
  if s = "read" then .ok .Read
  else if s = "read_append1" then .ok .ReadAppend1
  else if s = "read_append2" then .ok .ReadAppend2
  else if s = "read_append3" then .ok .ReadAppend3
  else if s = "update" then .ok .Update
  else if s = "write" then .ok .Write
  else if s = "full_access" then .ok .FullAccess
  else .error (.Validation ("Invalid access level string: " ++ s))

/-- Model of the From AccessLevel for ACLMask impl (types.rs). -/
def levelToMask : AccessLevel → ACLMask
  | .Read => READ_ONLY
  | .ReadAppend1 => Nat.lor READ_ONLY APPEND_1_BELOW
  | .ReadAppend2 => Nat.lor READ_ONLY APPEND_2_BELOW
  | .ReadAppend3 => Nat.lor READ_ONLY APPEND_3_BELOW
  | .Update => Nat.lor READ_ONLY UPDATE_ONLY
  | .Write => Nat.lor (Nat.lor READ_ONLY UPDATE_ONLY) APPEND_1_BELOW
  | .FullAccess => FULL_ACCESS

/-- One physical row of a collection table
(columns id, body, created_at, updated_at, owner, uniq, parent_id). -/
structure DataRow where
  id : String
  body : JsonValue
  created_at : Nat
  updated_at : Nat
  owner : String
  uniq : Option String
  parent_id : Option String

/-- A document plus its envelope metadata (types.rs DataItem). -/
structure DataItem where
  id : String
  created_at : Nat
  updated_at : Nat
  owner : String
  unique : Option String
  parent_id : Option String
  body : JsonValue

/-- Conversion of a fetched row to a DataItem (types.rs TryFrom
DataItemDocument; the body parse always succeeds on well-formed state). -/
def rowToItem (r : DataRow) : DataItem :=
  { id := r.id, created_at := r.created_at, updated_at := r.updated_at,
    owner := r.owner, unique := r.uniq, parent_id := r.parent_id, body := r.body }

/-- One row of the __acls table (columns id, data_collection, data_id,
user_id, permission, created_at, updated_at, owner). -/
structure AclRow where
  id : String
  data_collection : String
  data_id : String
  user_id : String
  permission : String
  created_at : Nat
  updated_at : Nat
  owner : String
deriving DecidableEq

/-- An ACL entry as exchanged with callers (types.rs PermissionSchema). -/
structure PermissionSchema where
  data_id : String
  user_id : String
  access_level : AccessLevel
deriving DecidableEq

/-- Parent reference descriptor of the x-parent-id keyword
(sqlite.rs checker::XParentIdMeta). -/
structure XParentIdMeta where
  parent : String
  field : String
deriving DecidableEq

/-- Model of sqlite.rs sanitize_table_name: map every character that is not
ASCII alphanumeric or underscore to underscore, and add the fixed prefix. -/
def sanitize_table_name (name : String) : String :=
  "c_" ++ String.mk (name.data.map (fun c => if c.isAlphanum || c = '_' then c else '_'))

/-- One SqliteBackend database: the collection tables keyed by their physical
(sanitized) table names, the __acls table, and the three registry side maps of
the backend struct (schema_validator as an abstract compiled predicate for the
plain draft-7 part of each schema, parent_ref, unique_fields).  The connection
pool always yields a connection in this model. -/
structure Database where
  tables : List (String × List DataRow)
  acls : List AclRow
  validators : List (String × (JsonValue → Bool))
  parent_ref : List (String × XParentIdMeta)
  unique_fields : List (String × String)

/-- Rows of the physical table backing a collection (empty when the table was
never provisioned). -/
def tableFor (db : Database) (collection : String) : List DataRow :=
  (((db.tables.find? (fun t => t.1 = sanitize_table_name collection))).map (fun t => t.2)).getD []

/-- Replace the rows of the physical table backing a collection. -/
def setTable (db : Database) (collection : String) (rows : List DataRow) : Database :=
  { db with tables :=
      db.tables.map (fun t => if t.1 = sanitize_table_name collection then (t.1, rows) else t) }

/-- Model of SqliteBackend::parent_collection: parent collection name and
parent field name for the given collection, if declared. -/
def parent_collection (db : Database) (collection : String) : Option (String × String) :=
  ((db.parent_ref.find? (fun t => t.1 = collection))).map (fun t => (t.2.parent, t.2.field))

/-- The compiled plain-schema validator for a collection, if registered. -/
def validatorFor (db : Database) (collection : String) : Option (JsonValue → Bool) :=
  ((db.validators.find? (fun t => t.1 = collection))).map (fun t => t.2)

/-- Model of SqliteBackend::fetch_unique_field: the value of the declared
unique field of the body, as a string (non-strings are serialised). -/
def fetch_unique_field (db : Database) (collection : String) (body : JsonValue) :
    Option String :=
  match db.unique_fields.find? (fun t => t.1 = collection) with
  | none => none
  | some (_, field) =>
    match body.get field with
    | none => none
    | some v =>
      match v.asStr with
      | some s => some s
      | none => some v.render

/-- Model of SqliteBackend::fetch_parent_id: the value of the declared parent
field of the body (non-strings are serialised). -/
def fetch_parent_id (db : Database) (collection : String) (body : JsonValue) :
    Option String :=
  match db.parent_ref.find? (fun t => t.1 = collection) with
  | none => none
  | some (_, meta) =>
    match body.get meta.field with
    | none => none
    | some v =>
      match v.asStr with
      | some s => some s
      | none => some v.render

/-- Model of checker::XParentId::validate (sqlite.rs): extract
document[field], which must be a string, then look the value up as an id in
the parent collection's table.  The pooled connection always succeeds here,
and the stored parent body is already parsed, so the final re-parse of the
source always succeeds on well-formed state. -/
def xParentIdValidate (db : Database) (meta : XParentIdMeta) (instance0 : JsonValue) :
    Except String Unit :=
  match (instance0.get meta.field).bind JsonValue.asStr with
  | none => .error "x_parent: field value missing or not string"
  | some value =>
    match (tableFor db meta.parent).find? (fun r => r.id = value) with
    | none => .error ("x_parent: parent id " ++ value ++ " not found in " ++ meta.parent)
    | some _ => .ok ()

/-- Model of SqliteBackend::validate_against_schema: run the compiled
validator for the collection (the plain draft-7 checks plus the x-parent-id
keyword, which the registry compiles in exactly when the schema declares it);
a missing validator or a rejection is a Validation error. -/
def validate_against_schema (db : Database) (collection : String) (body : JsonValue) :
    Except StoreError Unit :=
  match validatorFor db collection with
  | none => .error (.Validation ("collection " ++ collection ++ " not registered"))
  | some check =>
    if check body then
      match db.parent_ref.find? (fun t => t.1 = collection) with
      | some (_, meta) =>
        match xParentIdValidate db meta body with
        | .error e => .error (.Validation e)
        | .ok () => .ok ()
      | none => .ok ()
    else .error (.Validation "schema rejection")

/-- Engine-level failures of a single INSERT statement.  A primary-key or
UNIQUE-column conflict is a constraint violation whose message contains
UNIQUE, exactly what sqlite reports for both. -/
inductive SqliteError where
  | constraintUnique (msg : String)
  | constraintOther (msg : String)
  | other (msg : String)

/-- The engine's INSERT into a collection table: fails on a duplicate id
(primary key) or a duplicate non-null uniq value (UNIQUE column). -/
def sqlInsert (rows : List DataRow) (r : DataRow) : Except SqliteError (List DataRow) :=
  if rows.any (fun old => old.id = r.id) then
    .error (.constraintUnique "UNIQUE constraint failed: id")
  else
    match r.uniq with
    | some u =>
      if rows.any (fun old => old.uniq = some u) then
        .error (.constraintUnique "UNIQUE constraint failed: uniq")
      else .ok (rows ++ [r])
    | none => .ok (rows ++ [r])

/-- Model of SqliteBackend::import (sqlite.rs): validate, extract the unique
and parent side columns, run the INSERT, and reclassify engine constraint
violations: a UNIQUE violation becomes a Validation error, any other
constraint violation becomes a Validation (id already exists) error, anything
else stays a Backend error. -/
def importItem (db : Database) (collection : String) (body : JsonValue) (owner : String)
    (id : String) (created_at updated_at : Nat) :
    Except StoreError (Database × String) :=
  match validate_against_schema db collection body with
  | .error e => .error e
  | .ok () =>
    let unique := fetch_unique_field db collection body
    let parent_id := fetch_parent_id db collection body
    let row : DataRow :=
      { id := id, body := body, created_at := created_at, updated_at := updated_at,
        owner := owner, uniq := unique, parent_id := parent_id }
    match sqlInsert (tableFor db collection) row with
    | .error (.constraintUnique msg) =>
        .error (.Validation ("unique constraint violation: " ++ msg))
    | .error (.constraintOther msg) =>
        .error (.Validation ("id already exists: " ++ msg))
    | .error (.other msg) => .error (.Backend msg)
    | .ok rows => .ok (setTable db collection rows, id)

/-- Model of SqliteBackend::insert: a fresh id and the current instant are
supplied by the caller of the model. -/
def insertItem (db : Database) (collection : String) (body : JsonValue) (owner : String)
    (freshId : String) (now : Nat) : Except StoreError (Database × String) :=
  importItem db collection body owner freshId now now

/-- Model of SqliteBackend::get: the full item or NotFound. -/
def getItem (db : Database) (collection : String) (id : String) :
    Except StoreError DataItem :=
  match (tableFor db collection).find? (fun r => r.id = id) with
  | some r => .ok (rowToItem r)
  | none => .error (.NotFound ("Get Data " ++ collection ++ " / " ++ id))

/-- The SET clause of the UPDATE statement applied to one row when its id
matches: body, updated_at, uniq and parent_id are rewritten, all other
columns kept. -/
def updateRowColumns (id : String) (body : JsonValue) (now : Nat)
    (unique parent_id : Option String) (r : DataRow) : DataRow :=
  if r.id = id then
    { r with body := body, updated_at := now, uniq := unique, parent_id := parent_id }
  else r

/-- Model of SqliteBackend::update: revalidate, recompute the side columns,
then UPDATE body, updated_at, uniq and parent_id of every row matching the
id (at most one under the primary-key invariant); zero affected rows is
NotFound; finally read the row back. -/
def updateItem (db : Database) (collection : String) (id : String) (body : JsonValue)
    (now : Nat) : Except StoreError (Database × DataItem) :=
  match validate_against_schema db collection body with
  | .error e => .error e
  | .ok () =>
    let unique := fetch_unique_field db collection body
    let parent_id := fetch_parent_id db collection body
    let rows := tableFor db collection
    if rows.any (fun r => r.id = id) then
      let rows2 := rows.map (updateRowColumns id body now unique parent_id)
      let db2 := setTable db collection rows2
      match getItem db2 collection id with
      | .error e => .error e
      | .ok item => .ok (db2, item)
    else .error (.NotFound "Update Data")

/-- Model of SqliteBackend::delete. -/
def deleteItem (db : Database) (collection : String) (id : String) :
    Except StoreError Database :=
  let rows := tableFor db collection
  if rows.any (fun r => r.id = id) then
    .ok (setTable db collection (rows.filter (fun r => r.id ≠ id)))
  else .error (.NotFound "Delete Data")

/-- The per-id loop body of batch_delete, threading the table rows of the
open transaction; the first id with no row aborts with NotFound. -/
def batchDeleteLoop (rows : List DataRow) : List String → Except StoreError (List DataRow)
  | [] => .ok rows
  | id :: rest =>
    if rows.any (fun r => r.id = id) then
      batchDeleteLoop (rows.filter (fun r => r.id ≠ id)) rest
    else .error (.NotFound ("Delete Data id=" ++ id))

/-- Model of SqliteBackend::batch_delete: the whole loop runs in one
transaction, so an error rolls the table back (the caller keeps the original
database, which the Except-error result encodes). -/
def batch_delete (db : Database) (collection : String) (ids : List String) :
    Except StoreError Database :=
  match batchDeleteLoop (tableFor db collection) ids with
  | .error e => .error e
  | .ok rows => .ok (setTable db collection rows)

/-- Row ordering used by ORDER BY id ASC (TEXT with the default binary
collation; UTF-8 byte order agrees with the codepoint order Lean uses). -/
def rowLe (a b : DataRow) : Prop := a.id ≤ b.id

instance : DecidableRel rowLe := fun a b => inferInstanceAs (Decidable (a.id ≤ b.id))

instance : IsTotal DataRow rowLe := ⟨fun a b => le_total a.id b.id⟩

instance : IsTrans DataRow rowLe := ⟨fun _ _ _ h1 h2 => le_trans h1 h2⟩

/-- The rows selected by the list_by_owner query: WHERE owner matches AND
(marker IS NULL OR id >= marker), ORDER BY id ASC, LIMIT limit+1. -/
def queryByOwner (db : Database) (collection owner : String) (marker : Option String)
    (limit : Nat) : List DataRow :=
  (List.insertionSort rowLe
    ((tableFor db collection).filter (fun r =>
      r.owner = owner && (match marker with | none => true | some m => decide (m ≤ r.id))))).take
    (limit + 1)

/-- The row-consuming while loop shared by the listing operations: push rows
until the page is full, and when one more row follows, its id becomes the
next marker and it is not pushed. -/
def pageLoop : List DataRow → Nat → List DataItem × Option String
  | [], _ => ([], none)
  | r :: _, 0 => ([], some r.id)
  | r :: rest, Nat.succ k =>
    let (items, m) := pageLoop rest k
    (rowToItem r :: items, m)

/-- Model of SqliteBackend::list_by_owner. -/
def list_by_owner (db : Database) (collection owner : String) (marker : Option String)
    (limit : Nat) : List DataItem × Option String :=
  pageLoop (queryByOwner db collection owner marker limit) limit

/-- Driving list_by_owner to exhaustion: follow the returned marker until it
is null (or the fuel runs out, returning the marker still pending).  Returns
the concatenation of all pages and the final marker. -/
def followPages (db : Database) (collection owner : String) (limit : Nat) :
    Nat → Option String → List DataItem × Option String
  | 0, marker => ([], marker)
  | Nat.succ fuel, marker =>
    let (items, next) := list_by_owner db collection owner marker limit
    match next with
    | none => (items, none)
    | some m =>
      let (rest, fin) := followPages db collection owner limit fuel (some m)
      (items ++ rest, fin)

/-- The rows of a collection belonging to one owner (the WHERE owner clause
of the listing query). -/
def ownerRows (db : Database) (collection owner : String) : List DataRow :=
  (tableFor db collection).filter (fun r => r.owner = owner)

/-- Those rows in the order the listing query returns them
(ORDER BY id ASC). -/
def sortedOwnerRows (db : Database) (collection owner : String) : List DataRow :=
  List.insertionSort rowLe (ownerRows db collection owner)

/-- The rows of __acls selected for one data id (get_data_permissions query). -/
def aclRowsFor (db : Database) (data_collection data_id : String) : List AclRow :=
  db.acls.filter (fun r => r.data_collection = data_collection ∧ r.data_id = data_id)

/-- The row loop of get_data_permissions: parse each stored permission string,
propagating a parse failure. -/
def collectPerms (data_id : String) : List AclRow → Except StoreError (List PermissionSchema)
  | [] => .ok []
  | r :: rest =>
    match levelFromStr r.permission with
    | .error e => .error e
    | .ok level =>
      match collectPerms data_id rest with
      | .error e => .error e
      | .ok tail =>
        .ok ({ data_id := data_id, user_id := r.user_id, access_level := level } :: tail)

/-- Model of SqliteBackend::get_data_permissions. -/
def get_data_permissions (db : Database) (data_collection data_id : String) :
    Except StoreError (List PermissionSchema) :=
  collectPerms data_id (aclRowsFor db data_collection data_id)

/-- Model of HashMap insert keyed by user id (order of iteration is the
association-list order; the set-level claims are insensitive to it). -/
def hmInsert (m : List (String × PermissionSchema)) (k : String) (v : PermissionSchema) :
    List (String × PermissionSchema) :=
  if m.any (fun p => p.1 = k) then m.map (fun p => if p.1 = k then (k, v) else p)
  else m ++ [(k, v)]

/-- Model of HashMap::from_iter over (user_id, permission) pairs. -/
def hmFromIter (ps : List PermissionSchema) : List (String × PermissionSchema) :=
  ps.foldl (fun m p => hmInsert m p.user_id p) []

/-- Model of HashMap::remove: the removed value, if present, and the rest. -/
def hmRemove (m : List (String × PermissionSchema)) (k : String) :
    Option PermissionSchema × List (String × PermissionSchema) :=
  (((m.find? (fun p => p.1 = k))).map (fun p => p.2), m.filter (fun p => p.1 ≠ k))

/-- The classification loop of update_acls over the old permissions: removed
user ids, level-changed permissions to UPDATE in place, and the map of
permissions that remain to INSERT. -/
def classifyLoop : List PermissionSchema → List (String × PermissionSchema) →
    List String × List PermissionSchema × List (String × PermissionSchema)
  | [], m => ([], [], m)
  | old :: rest, m =>
    let (found, m2) := hmRemove m old.user_id
    let (dels, upds, remaining) := classifyLoop rest m2
    match found with
    | some newP =>
      if newP.access_level ≠ old.access_level then (dels, newP :: upds, remaining)
      else (dels, upds, remaining)
    | none => (old.user_id :: dels, upds, remaining)

/-- The UPDATE statement of update_acls applied to one row: when the row
matches the collection, data id and user, its permission and updated_at are
rewritten in place. -/
def updAclRow (data_collection data_id : String) (now : Nat) (p : PermissionSchema)
    (r : AclRow) : AclRow :=
  if r.data_collection = data_collection ∧ r.data_id = data_id ∧ r.user_id = p.user_id
  then { r with permission := levelToString p.access_level, updated_at := now }
  else r

/-- The INSERT loop of update_acls over the permissions that remain in the
map: one fresh row id per iteration, counted from n. -/
def insertRows (data_collection data_id owner : String) (now : Nat)
    (freshId : Nat → String) : Nat → List (String × PermissionSchema) → List AclRow
  | _, [] => []
  | n, q :: rest =>
    { id := freshId n, data_collection := data_collection, data_id := data_id,
      user_id := q.2.user_id, permission := levelToString q.2.access_level,
      created_at := now, updated_at := now, owner := owner } ::
      insertRows data_collection data_id owner now freshId (n + 1) rest

/-- Model of SqliteBackend::update_acls (the ACL bulk replace): classify the
old entries against the new set, then in one transaction DELETE the removed
users' rows, UPDATE the level-changed rows in place, and INSERT the added
entries with fresh row ids drawn from the supplied generator. -/
def update_acls (db : Database) (data_collection data_id : String)
    (new_permissions : List PermissionSchema) (owner : String) (now : Nat)
    (freshId : Nat → String) : Except StoreError Database :=
  match get_data_permissions db data_collection data_id with
  | .error e => .error e
  | .ok old =>
  let (deleted_ids, to_update, remaining) := classifyLoop old (hmFromIter new_permissions)
  let acls1 := deleted_ids.foldl
    (fun acc uid => acc.filter (fun r =>
      ¬(r.data_collection = data_collection ∧ r.data_id = data_id ∧ r.user_id = uid)))
    db.acls
  let acls2 := to_update.foldl
    (fun acc p => acc.map (updAclRow data_collection data_id now p)) acls1
  let inserted := insertRows data_collection data_id owner now freshId 0 remaining
  .ok { db with acls := acls2 ++ inserted }

/-- Model of Store::root_get_data_acl: the stored permissions of a data id
(no permission check). -/
def root_get_data_acl (db : Database) (collection data_id : String) :
    Except StoreError (List PermissionSchema) :=
  get_data_permissions db collection data_id

/-- One unfolding of Store::check_permission (store.rs): the ownership
short-circuit, then the direct-ACL scan (a failing ACL read is ignored), then
the recursion to the parent item, taken through the continuation. -/
def check_permission_step
    (recurse : String → DataItem → Except StoreError Bool)
    (db : Database) (collection : String) (data : DataItem) (user : String)
    (needed_mask : ACLMask) : Except StoreError Bool :=
  if data.owner = user then .ok true
  else
    let direct :=
      match root_get_data_acl db collection data.id with
      | .ok perms =>
        perms.any (fun perm =>
          perm.user_id = user && maskContains (levelToMask perm.access_level) needed_mask)
      | .error _ => false
    if direct then .ok true
    else
      match data.parent_id, parent_collection db collection with
      | some parent_id, some (pcoll, _field) =>
        (match getItem db pcoll parent_id with
         | .error e => .error e
         | .ok parent_data => recurse pcoll parent_data)
      | _, _ => .ok false

/-- Model of Store::check_permission.  The source recursion is bounded only by
the parent graph; the model spends one unit of fuel per ancestor hop (claims
are stated with sufficient fuel).  Note the recursive call passes needed_mask
through unchanged, exactly as the source does. -/
def check_permission : Nat → Database → String → DataItem → String → ACLMask →
    Except StoreError Bool
  | 0, db, collection, data, user, needed_mask =>
    check_permission_step (fun _ _ => .error (.Backend "recursion depth exceeded"))
      db collection data user needed_mask
  | Nat.succ fuel, db, collection, data, user, needed_mask =>
    check_permission_step
      (fun pcoll parent_data => check_permission fuel db pcoll parent_data user needed_mask)
      db collection data user needed_mask

/-- Modelled from the spec: the required mask Store::insert checks on the
parent item.  ACLMask::CREATE_ONLY is referenced in store.rs but defined
nowhere under src; the spec maps insert into a child collection to APPEND_1
evaluated on the parent. -/
def CREATE_ONLY : ACLMask := APPEND_1_BELOW

/-- Model of Store::insert (store.rs): when the collection declares a parent,
read the parent id field from the body, fetch the parent item and gate the
write on check_permission with CREATE_ONLY; a root collection is inserted
without any check. -/
def storeInsert (fuel : Nat) (db : Database) (collection : String) (body : JsonValue)
    (user : String) (freshId : String) (now : Nat) :
    Except StoreError (Database × String) :=
  match parent_collection db collection with
  | some (pcoll, field) =>
    match (body.get field).bind JsonValue.asStr with
    | none =>
      .error (.Validation ("missing parent id field " ++ field ++ " for collection " ++
        collection))
    | some parent_id =>
      match getItem db pcoll parent_id with
      | .error e => .error e
      | .ok parent_data =>
        match check_permission fuel db pcoll parent_data user CREATE_ONLY with
        | .error e => .error e
        | .ok allowed =>
          if allowed then insertItem db collection body user freshId now
          else .error .PermissionDenied
  | none => insertItem db collection body user freshId now

/-- An HPKE cipher suite as the hpke crate exposes it to utils/hpke.rs: key
encapsulation bound to an info string, and an AEAD.  The carrier types are
abstract; byte (de)serialisation of keys is the identity of the model. -/
structure HpkeSuite (Pk Sk Enc Key Pt Ct Aad Rng : Type) where
  gen_keypair : Rng → Sk × Pk
  setup_sender : String → Pk → Rng → Enc × Key
  setup_receiver : String → Sk → Enc → Option Key
  aeadSeal : Key → Pt → Aad → Option Ct
  aeadOpen : Key → Ct → Aad → Option Pt

/-- The documented correctness contract of the hpke crate primitives: the
receiver derives the sender's key from the encapsulation, and the AEAD opens
what it sealed under the same key and AAD. -/
structure HpkeSuiteCorrect {Pk Sk Enc Key Pt Ct Aad Rng : Type}
    (S : HpkeSuite Pk Sk Enc Key Pt Ct Aad Rng) : Prop where
  decap_encap : ∀ (rngK rngE : Rng) (info : String),
    S.setup_receiver info (S.gen_keypair rngK).1
        (S.setup_sender info (S.gen_keypair rngK).2 rngE).1 =
      some (S.setup_sender info (S.gen_keypair rngK).2 rngE).2
  open_seal : ∀ (k : Key) (m : Pt) (aad : Aad) (ct : Ct),
    S.aeadSeal k m aad = some ct → S.aeadOpen k ct aad = some m

/-- The fixed info literal binding ciphertexts to this protocol
(utils/hpke.rs INFO_STR). -/
def INFO_STR : String := "syncstore hpke v1"

/-- Model of utils/hpke.rs encrypt_data: set up a sender to the public key
with the fixed info string and an ephemeral rng, and seal the plaintext under
the AAD; returns (encapsulated key, ciphertext). -/
def encrypt_data {Pk Sk Enc Key Pt Ct Aad Rng : Type}
    (S : HpkeSuite Pk Sk Enc Key Pt Ct Aad Rng)
    (plaintext : Pt) (public_key : Pk) (aad : Aad) (rng : Rng) : Option (Enc × Ct) :=
  let sender := S.setup_sender INFO_STR public_key rng
  (S.aeadSeal sender.2 plaintext aad).map (fun ct => (sender.1, ct))

/-- Model of utils/hpke.rs decrypt_data: set up the receiver from the private
key and the encapsulated key with the fixed info string, and open the
ciphertext under the AAD. -/
def decrypt_data {Pk Sk Enc Key Pt Ct Aad Rng : Type}
    (S : HpkeSuite Pk Sk Enc Key Pt Ct Aad Rng)
    (ciphertext : Ct) (encapped_key : Enc) (private_key : Sk) (aad : Aad) : Option Pt :=
  match S.setup_receiver INFO_STR private_key encapped_key with
  | none => none
  | some k => S.aeadOpen k ciphertext aad

/-- HTTP-level error outcomes of the request extractor
(salvo StatusError constructors used in router/hpke_wrapper.rs). -/
inductive StatusErr where
  | badRequest (brief : String)
  | unauthorized (brief : String)
  | internalServerError
deriving DecidableEq

/-- The stored user record as the wrapper consumes it (types.rs UserSchema;
key material abstracted to Nat handles). -/
structure UserSchemaM where
  user_id : String
  username : String
  password : String
  avatar_url : Option String
  public_key : Nat
  secret_key : Nat

/-- The request as the extractor sees it: the decoded X-Enc header (none when
the header is absent), the body payload read, the authenticated user's record
placed in the request extensions, and the request path. -/
structure RequestM where
  header_x_enc : Option Nat
  payload : Except String Nat
  ext_user_schema : Option UserSchemaM
  path : String

/-- Model of HpkeRequest::extract (router/hpke_wrapper.rs), parameterised by
the decryption primitive (ciphertext, encapped key, secret key, aad) and the
JSON deserialisation of the final bytes.  When X-Enc is present the body is
ciphertext: read the payload, resolve the stored user (absence is
unauthorized), decrypt with the request path as AAD (failure is mapped with
the bad_request constructor), then parse; without X-Enc the payload is parsed
directly. -/
def hpkeRequestExtract {T : Type}
    (decrypt : Nat → Nat → Nat → String → Except String Nat)
    (parse : Nat → Except String T)
    (req : RequestM) : Except StatusErr T := do
  let final_bytes ←
    match req.header_x_enc with
    | some encapped_key =>
      match req.payload with
      | .error e => .error (.badRequest e)
      | .ok bytes =>
        match req.ext_user_schema with
        | none => .error (.unauthorized "user_schema not found")
        | some user_schema =>
          match decrypt bytes encapped_key user_schema.secret_key req.path with
          | .error e => .error (.badRequest e)
          | .ok decrypted_bytes => .ok decrypted_bytes
    | none =>
      match req.payload with
      | .error e => .error (.badRequest e)
      | .ok bytes => .ok bytes
  match parse final_bytes with
  | .error e => .error (.badRequest ("invalid json body: " ++ e))
  | .ok value => .ok value

/-- Collection used by the batch-delete witness: three plain rows. -/
def dbThreeNotes : Database :=
  { tables :=
      [("c_note",
         [{ id := "n1", body := .null, created_at := 1, updated_at := 1, owner := "A",
            uniq := none, parent_id := none },
          { id := "n2", body := .null, created_at := 1, updated_at := 1, owner := "A",
            uniq := none, parent_id := none },
          { id := "n3", body := .null, created_at := 1, updated_at := 1, owner := "A",
            uniq := none, parent_id := none }])],
    acls := [], validators := [("note", fun _ => true)], parent_ref := [],
    unique_fields := [] }

/-- A schema validator that accepts every document (plain draft-7 part). -/
def acceptAll : JsonValue → Bool := fun _ => true

/-- Deployment for the uniqueness witness: collection post with x-unique on
title and an empty (but provisioned) table. -/
def dbUniquePost : Database :=
  { tables := [("c_post", [])], acls := [], validators := [("post", acceptAll)],
    parent_ref := [], unique_fields := [("post", "title")] }

/-- The document inserted twice in the uniqueness witness. -/
def welcomeBody : JsonValue :=
  .obj [("title", .str "Welcome"), ("author", .str "system")]

/-- Deployment for the parent-reference witness: collection repo holding row
r1 and child collection post with x-parent-id repo/repo_id. -/
def dbParentCheck : Database :=
  { tables :=
      [("c_repo",
         [{ id := "r1", body := .obj [("name", .str "Repo")], created_at := 1,
            updated_at := 1, owner := "A", uniq := none, parent_id := none }]),
       ("c_post", [])],
    acls := [], validators := [("repo", acceptAll), ("post", acceptAll)],
    parent_ref := [("post", { parent := "repo", field := "repo_id" })],
    unique_fields := [] }

/-- Deployment with exactly one row under owner A, for the pagination
counterexample at limit = N = 1. -/
def dbOneNote : Database :=
  { tables :=
      [("c_note",
         [{ id := "n1", body := .null, created_at := 1, updated_at := 1, owner := "A",
            uniq := none, parent_id := none }])],
    acls := [], validators := [("note", acceptAll)], parent_ref := [],
    unique_fields := [] }

/-- Deployment with three rows under owner A, for the pagination witness at
limit 2. -/
def dbThreePosts : Database :=
  { tables :=
      [("c_post",
         [{ id := "a1", body := .null, created_at := 1, updated_at := 1, owner := "A",
            uniq := none, parent_id := none },
          { id := "b2", body := .null, created_at := 2, updated_at := 2, owner := "A",
            uniq := none, parent_id := none },
          { id := "c3", body := .null, created_at := 3, updated_at := 3, owner := "A",
            uniq := none, parent_id := none }])],
    acls := [], validators := [("post", acceptAll)], parent_ref := [],
    unique_fields := [] }

/-- Deployment for the ACL bulk-replace witness: item X carries grants
B:read and C:write, both created by owner A. -/
def dbAclReplace : Database :=
  { tables := [],
    acls :=
      [{ id := "g1", data_collection := "repo", data_id := "X", user_id := "B",
         permission := "read", created_at := 1, updated_at := 1, owner := "A" },
       { id := "g2", data_collection := "repo", data_id := "X", user_id := "C",
         permission := "write", created_at := 1, updated_at := 1, owner := "A" }],
    validators := [], parent_ref := [], unique_fields := [] }

/-- The replacement permission set of the bulk-replace witness:
B level-changed to write, C absent (removed), D added with read. -/
def newPermsBD : List PermissionSchema :=
  [{ data_id := "X", user_id := "B", access_level := .Write },
   { data_id := "X", user_id := "D", access_level := .Read }]

/-- Deployment for the update-frame witness: two plain rows n1 and n2. -/
def dbTwoNotes : Database :=
  { tables :=
      [("c_note",
         [{ id := "n1", body := .str "one", created_at := 1, updated_at := 1,
            owner := "A", uniq := none, parent_id := none },
          { id := "n2", body := .str "two", created_at := 2, updated_at := 2,
            owner := "B", uniq := none, parent_id := none }])],
    acls := [], validators := [("note", acceptAll)], parent_ref := [],
    unique_fields := [] }

/-- Concrete three-level deployment for exercising ancestor inheritance:
collections repo, post (parent repo via repo_id) and comment (parent post via
post_id); user A owns repo r1 and post p1 under it; user B holds a
read_append1 grant on the repo. -/
def dbAclChain : Database :=
  { tables :=
      [("c_repo",
         [{ id := "r1", body := .obj [("name", .str "Repo")], created_at := 1,
            updated_at := 1, owner := "A", uniq := none, parent_id := none }]),
       ("c_post",
         [{ id := "p1", body := .obj [("title", .str "Post"), ("repo_id", .str "r1")],
            created_at := 2, updated_at := 2, owner := "A", uniq := none,
            parent_id := some "r1" }]),
       ("c_comment", [])],
    acls :=
      [{ id := "a1", data_collection := "repo", data_id := "r1", user_id := "B",
         permission := "read_append1", created_at := 3, updated_at := 3, owner := "A" }],
    validators := [("repo", acceptAll), ("post", acceptAll), ("comment", acceptAll)],
    parent_ref :=
      [("post", { parent := "repo", field := "repo_id" }),
       ("comment", { parent := "post", field := "post_id" })],
    unique_fields := [] }

/-- Body of a post inserted directly under repo r1. -/
def postBodyB : JsonValue := .obj [("title", .str "by B"), ("repo_id", .str "r1")]

/-- Body of a comment inserted under post p1, two levels below the repo. -/
def commentBodyB : JsonValue := .obj [("content", .str "by B"), ("post_id", .str "p1")]

/-- Empty deployment used by ownership witnesses. -/
def dbEmpty : Database :=
  { tables := [], acls := [], validators := [], parent_ref := [], unique_fields := [] }

/-- A sample item owned by alice. -/
def aliceItem : DataItem :=
  { id := "x1", created_at := 1, updated_at := 1, owner := "alice", unique := none,
    parent_id := none, body := .null }

/-- A decryption primitive that always fails (abstract handle model). -/
def c8FailDecrypt : Nat → Nat → Nat → String → Except String Nat :=
  fun _ _ _ _ => .error "decryption failed"

/-- A body deserialisation that accepts the bytes unchanged. -/
def c8IdParse : Nat → Except String Nat := fun b => .ok b

/-- A request carrying the X-Enc header, a readable payload and a resolved
user record. -/
def c8Req : RequestM :=
  { header_x_enc := some 11, payload := .ok 22,
    ext_user_schema := some
      { user_id := "u1", username := "bob", password := "pw", avatar_url := none,
        public_key := 7, secret_key := 8 },
    path := "/data/ns/repo" }

/-- A toy HPKE suite over Nat handles satisfying the crate contract: the
shared key is public key plus ephemeral randomness, and the AEAD prefixes the
key and the AAD length. -/
def toySuite : HpkeSuite Nat Nat Nat Nat (List Nat) (List Nat) (List Nat) Nat where
  gen_keypair := fun rng => (rng, rng)
  setup_sender := fun _ pk rng => (rng, pk + rng)
  setup_receiver := fun _ sk enc => some (sk + enc)
  aeadSeal := fun k m aad => some (k :: aad.length :: m)
  aeadOpen := fun k ct aad =>
    match ct with
    | k2 :: n :: m => if k2 = k ∧ n = aad.length then some m else none
    | _ => none

/-- The toy suite satisfies the HPKE correctness contract. -/
theorem toySuite_correct : HpkeSuiteCorrect toySuite := by
  constructor
  · intro rngK rngE info
    simp [toySuite, Nat.add_comm]
  · intro k m aad ct h
    simp [toySuite] at h
    simp [toySuite, ← h]

/-- C1: the spec says the required mask is promoted per ancestor hop so that a
read_append1 grant on the repo does not reach two levels down; evaluating the
code on that exact scenario shows both the direct child insert and the insert
two levels below succeed (check_permission passes needed_mask through
unchanged and never calls upgrade_for_parent). -/
theorem C1_two_levels_below_allowed :
    (storeInsert 8 dbAclChain "post" postBodyB "B" "p9" 9).isOk = true ∧
    (storeInsert 8 dbAclChain "comment" commentBodyB "B" "c9" 9).isOk = true := by
  decide

/-- C2: the permission resolver allows whatever is asked whenever the item's
owner is the requesting user, for every fuel, database, collection and
required mask. -/
theorem C2_owner_short_circuit (fuel : Nat) (db : Database) (collection : String)
    (data : DataItem) (user : String) (mask : ACLMask) (h : data.owner = user) :
    check_permission fuel db collection data user mask = .ok true := by
  cases fuel <;> simp [check_permission, check_permission_step, h]

/-- Witness for C2 at a concrete item whose owner is alice. -/
theorem C2_owner_short_circuit_witness :
    check_permission 0 dbEmpty "c" aliceItem "alice" FULL_ACCESS = .ok true :=
  C2_owner_short_circuit 0 dbEmpty "c" aliceItem "alice" FULL_ACCESS (by decide)

/-- C8 counterexample: with X-Enc present, a readable payload and a resolved
user, a failing decryption surfaces as bad_request, not unauthorized, so the
claim that it is surfaced as an unauthorized error fails on this input. -/
theorem C8_counterexample :
    hpkeRequestExtract c8FailDecrypt c8IdParse c8Req =
      .error (.badRequest "decryption failed") ∧
    ∀ s, hpkeRequestExtract c8FailDecrypt c8IdParse c8Req ≠
      .error (.unauthorized s) := by
  constructor
  · rfl
  · intro s h
    rw [show hpkeRequestExtract c8FailDecrypt c8IdParse c8Req =
          .error (.badRequest "decryption failed") from rfl] at h
    simp at h

/-- C8 amended: when the X-Enc header is present, the payload reads, the
authenticated user's record is available and decryption of the body fails,
the extractor returns a bad_request error carrying the failure message (the
unauthorized error is reserved for a missing user record). -/
theorem C8_decrypt_failure_is_bad_request {T : Type}
    (decrypt : Nat → Nat → Nat → String → Except String Nat)
    (parse : Nat → Except String T) (req : RequestM)
    (enc bytes : Nat) (us : UserSchemaM) (e : String)
    (h1 : req.header_x_enc = some enc) (h2 : req.payload = .ok bytes)
    (h3 : req.ext_user_schema = some us)
    (h4 : decrypt bytes enc us.secret_key req.path = .error e) :
    hpkeRequestExtract decrypt parse req = .error (.badRequest e) := by
  simp only [hpkeRequestExtract, h1, h2, h3, h4]
  rfl

/-- Witness for the C8 amended theorem at the concrete failing request. -/
theorem C8_decrypt_failure_is_bad_request_witness :
    hpkeRequestExtract c8FailDecrypt c8IdParse c8Req =
      .error (.badRequest "decryption failed") :=
  C8_decrypt_failure_is_bad_request c8FailDecrypt c8IdParse c8Req 11 22
    { user_id := "u1", username := "bob", password := "pw", avatar_url := none,
      public_key := 7, secret_key := 8 }
    "decryption failed" rfl rfl rfl rfl

/-- C9: under the hpke crate's correctness contract, encrypting to the public
key of a generated pair and decrypting the resulting ciphertext and
encapsulated key with the matching secret key and the same AAD returns the
plaintext. -/
theorem C9_hpke_round_trip {Pk Sk Enc Key Pt Ct Aad Rng : Type}
    (S : HpkeSuite Pk Sk Enc Key Pt Ct Aad Rng) (hS : HpkeSuiteCorrect S)
    (m : Pt) (aad : Aad) (rngK rngE : Rng) (enc : Enc) (ct : Ct)
    (henc : encrypt_data S m (S.gen_keypair rngK).2 aad rngE = some (enc, ct)) :
    decrypt_data S ct enc (S.gen_keypair rngK).1 aad = some m := by
  simp only [encrypt_data] at henc
  cases hseal : S.aeadSeal (S.setup_sender INFO_STR (S.gen_keypair rngK).2 rngE).2 m aad with
  | none => rw [hseal] at henc; simp at henc
  | some ct2 =>
    rw [hseal] at henc
    simp only [Option.map_some'] at henc
    have h1 : (S.setup_sender INFO_STR (S.gen_keypair rngK).2 rngE).1 = enc := by
      exact congrArg Prod.fst (Option.some.inj henc)
    have h2 : ct2 = ct := by
      exact congrArg Prod.snd (Option.some.inj henc)
    unfold decrypt_data
    rw [← h1, hS.decap_encap rngK rngE INFO_STR]
    exact hS.open_seal _ m aad ct (h2 ▸ hseal)

/-- Witness for C9 on the toy suite with concrete keys, plaintext and AAD. -/
theorem C9_hpke_round_trip_witness :
    decrypt_data toySuite [12, 1, 1, 2, 3] 7 (toySuite.gen_keypair 5).1 [9] =
      some [1, 2, 3] :=
  C9_hpke_round_trip toySuite toySuite_correct [1, 2, 3] [9] 5 7 7 [12, 1, 1, 2, 3] rfl

/-- Updating one keyed entry and reading it back yields the new rows when the
key was present, and nothing when it was not. -/
theorem find?_update_key (tables : List (String × List DataRow)) (key : String)
    (rows : List DataRow) :
    ((((tables.map (fun t => if t.1 = key then (t.1, rows) else t)).find?
        (fun t => t.1 = key))).map (fun t => t.2)).getD [] =
      if (tables.find? (fun t => t.1 = key)).isSome then rows else [] := by
  induction tables with
  | nil => simp
  | cons hd tl ih =>
    by_cases h : hd.1 = key
    · simp [List.find?_cons, h]
    · simp only [List.map_cons, if_neg h, List.find?_cons, decide_eq_true_eq, if_neg h]
      simp only [decide_eq_false h]
      exact ih

/-- tableFor after setTable on the same collection: the new rows, provided the
physical table exists. -/
theorem tableFor_setTable_self (db : Database) (c : String) (rows : List DataRow)
    (h : (db.tables.find? (fun t => t.1 = sanitize_table_name c)).isSome = true) :
    tableFor (setTable db c rows) c = rows := by
  show ((((db.tables.map (fun t => if t.1 = sanitize_table_name c
      then (t.1, rows) else t)).find? (fun t => t.1 = sanitize_table_name c))).map
      (fun t => t.2)).getD [] = rows
  rw [find?_update_key, if_pos h]

/-- Success of the batch-delete loop means every listed id had a row in the
table the transaction started from. -/
theorem batchDeleteLoop_ok_mem (ids : List String) (rows rows2 : List DataRow)
    (h : batchDeleteLoop rows ids = .ok rows2) :
    ∀ id ∈ ids, ∃ r ∈ rows, r.id = id := by
  induction ids generalizing rows with
  | nil => intro id hmem; simp at hmem
  | cons i rest ih =>
    intro id hmem
    unfold batchDeleteLoop at h
    cases hany : rows.any (fun r => r.id = i) with
    | false => rw [hany] at h; simp at h
    | true =>
      rw [hany] at h
      simp only [if_pos] at h
      rcases List.mem_cons.mp hmem with rfl | hmem2
      · obtain ⟨r, hr, hrid⟩ := List.any_eq_true.mp hany
        exact ⟨r, hr, of_decide_eq_true hrid⟩
      · obtain ⟨r, hr, hrid⟩ := ih _ h id hmem2
        exact ⟨r, (List.mem_filter.mp hr).1, hrid⟩

/-- When some listed id has no row in the starting table, the batch-delete
loop aborts with NotFound. -/
theorem batchDeleteLoop_missing (ids : List String) (rows : List DataRow)
    (h : ∃ id ∈ ids, ∀ r ∈ rows, r.id ≠ id) :
    ∃ msg, batchDeleteLoop rows ids = .error (.NotFound msg) := by
  induction ids generalizing rows with
  | nil => obtain ⟨id, hmem, _⟩ := h; simp at hmem
  | cons i rest ih =>
    obtain ⟨id, hmem, habs⟩ := h
    unfold batchDeleteLoop
    cases hany : rows.any (fun r => r.id = i) with
    | false => exact ⟨"Delete Data id=" ++ i, by simp⟩
    | true =>
      simp only [if_pos]
      rcases List.mem_cons.mp hmem with rfl | hmem2
      · obtain ⟨r, hr, hrid⟩ := List.any_eq_true.mp hany
        exact absurd (of_decide_eq_true hrid) (habs r hr)
      · refine ih _ ⟨id, hmem2, ?_⟩
        intro r hr
        exact habs r (List.mem_filter.mp hr).1

/-- C7: batch_delete succeeds only when every targeted id had a row, and when
some id of the list has no row the whole operation fails with NotFound, the
transaction rolling the table back (no database is produced). -/
theorem C7_batch_delete_transactional (db : Database) (collection : String)
    (ids : List String) :
    (∀ db2, batch_delete db collection ids = .ok db2 →
      ∀ id ∈ ids, ∃ r ∈ tableFor db collection, r.id = id) ∧
    ((∃ id ∈ ids, ∀ r ∈ tableFor db collection, r.id ≠ id) →
      ∃ msg, batch_delete db collection ids = .error (.NotFound msg)) := by
  constructor
  · intro db2 h
    unfold batch_delete at h
    cases hloop : batchDeleteLoop (tableFor db collection) ids with
    | error e => rw [hloop] at h; cases h
    | ok rows2 => exact batchDeleteLoop_ok_mem ids _ rows2 hloop
  · intro h
    obtain ⟨msg, hmsg⟩ := batchDeleteLoop_missing ids (tableFor db collection) h
    refine ⟨msg, ?_⟩
    unfold batch_delete
    rw [hmsg]

/-- Witness for C7: deleting a present id together with a missing one fails
with NotFound. -/
theorem C7_batch_delete_transactional_witness :
    ∃ msg, batch_delete dbThreeNotes "note" ["n1", "zz"] = .error (.NotFound msg) :=
  (C7_batch_delete_transactional dbThreeNotes "note" ["n1", "zz"]).2
    ⟨"zz", by decide, by decide⟩

/-- A non-empty table means its physical entry exists in the database. -/
theorem tableFor_exists_of_ne_nil (db : Database) (c : String)
    (h : tableFor db c ≠ []) :
    (db.tables.find? (fun t => t.1 = sanitize_table_name c)).isSome = true := by
  unfold tableFor at h
  cases hf : db.tables.find? (fun t => t.1 = sanitize_table_name c) with
  | none => rw [hf] at h; simp at h
  | some t => simp [hf]

/-- C5: with x-unique declared on field f, two inserts whose bodies carry the
same string at f yield one success and then a Validation (not Backend)
failure: the engine's UNIQUE violation is reclassified at the mapper
boundary. -/
theorem C5_unique_violation_is_validation (db : Database) (coll f v : String)
    (chk : JsonValue → Bool) (body1 body2 : JsonValue) (owner1 owner2 : String)
    (id1 id2 : String) (t1 t2 t3 t4 : Nat)
    (htab : (db.tables.find? (fun t => t.1 = sanitize_table_name coll)).isSome = true)
    (hchk : validatorFor db coll = some chk)
    (hc1 : chk body1 = true) (hc2 : chk body2 = true)
    (hnp : db.parent_ref.find? (fun t => t.1 = coll) = none)
    (huf : db.unique_fields.find? (fun t => t.1 = coll) = some (coll, f))
    (hb1 : body1.get f = some (.str v)) (hb2 : body2.get f = some (.str v))
    (hid1 : ∀ r ∈ tableFor db coll, r.id ≠ id1)
    (hid2 : ∀ r ∈ tableFor db coll, r.id ≠ id2) (hne : id1 ≠ id2)
    (hv : ∀ r ∈ tableFor db coll, r.uniq ≠ some v) :
    ∃ db1, importItem db coll body1 owner1 id1 t1 t2 = .ok (db1, id1) ∧
      ∃ msg, importItem db1 coll body2 owner2 id2 t3 t4 = .error (.Validation msg) := by
  have hval1 : validate_against_schema db coll body1 = .ok () := by
    simp [validate_against_schema, hchk, hc1, hnp]
  have hval2 : validate_against_schema db coll body2 = .ok () := by
    simp [validate_against_schema, hchk, hc2, hnp]
  have hu1 : fetch_unique_field db coll body1 = some v := by
    simp [fetch_unique_field, huf, hb1, JsonValue.asStr]
  have hu2 : fetch_unique_field db coll body2 = some v := by
    simp [fetch_unique_field, huf, hb2, JsonValue.asStr]
  have hp1 : fetch_parent_id db coll body1 = none := by
    simp [fetch_parent_id, hnp]
  have hp2 : fetch_parent_id db coll body2 = none := by
    simp [fetch_parent_id, hnp]
  have hany1 : (tableFor db coll).any (fun r => r.id = id1) = false := by
    rw [List.any_eq_false]
    intro r hr
    simp [hid1 r hr]
  have hanyu : (tableFor db coll).any (fun r => r.uniq = some v) = false := by
    rw [List.any_eq_false]
    intro r hr
    simp [hv r hr]
  have hins1 : sqlInsert (tableFor db coll)
      { id := id1, body := body1, created_at := t1, updated_at := t2,
        owner := owner1, uniq := some v, parent_id := none } =
      .ok (tableFor db coll ++
        [{ id := id1, body := body1, created_at := t1, updated_at := t2,
           owner := owner1, uniq := some v, parent_id := none }]) := by
    simp [sqlInsert, hany1, hanyu]
  refine ⟨setTable db coll (tableFor db coll ++
      [{ id := id1, body := body1, created_at := t1, updated_at := t2,
         owner := owner1, uniq := some v, parent_id := none }]), ?_, ?_⟩
  · simp only [importItem, hval1, hu1, hp1]
    rw [hins1]
  · have htab1 : tableFor (setTable db coll (tableFor db coll ++
        [{ id := id1, body := body1, created_at := t1, updated_at := t2,
           owner := owner1, uniq := some v, parent_id := none }])) coll =
        tableFor db coll ++
        [{ id := id1, body := body1, created_at := t1, updated_at := t2,
           owner := owner1, uniq := some v, parent_id := none }] :=
      tableFor_setTable_self db coll _ htab
    have hany2 : (tableFor db coll ++
        [{ id := id1, body := body1, created_at := t1, updated_at := t2,
           owner := owner1, uniq := some v, parent_id := none : DataRow }]).any
        (fun r => r.id = id2) = false := by
      rw [List.any_eq_false]
      intro r hr
      rcases List.mem_append.mp hr with h1 | h1
      · simp [hid2 r h1]
      · simp at h1
        simp [h1, hne]
    refine ⟨"unique constraint violation: UNIQUE constraint failed: uniq", ?_⟩
    generalize hDB : setTable db coll (tableFor db coll ++
        [{ id := id1, body := body1, created_at := t1, updated_at := t2,
           owner := owner1, uniq := some v, parent_id := none }]) = dbX at htab1 ⊢
    have hproj : dbX.validators = db.validators ∧ dbX.parent_ref = db.parent_ref ∧
        dbX.unique_fields = db.unique_fields := by
      rw [← hDB]
      exact ⟨rfl, rfl, rfl⟩
    obtain ⟨hV, hP, hU⟩ := hproj
    have hchkX : validatorFor dbX coll = some chk := by
      unfold validatorFor at hchk ⊢
      rw [hV]
      exact hchk
    have hnpX : dbX.parent_ref.find? (fun t => t.1 = coll) = none := by
      rw [hP]
      exact hnp
    have hufX : dbX.unique_fields.find? (fun t => t.1 = coll) = some (coll, f) := by
      rw [hU]
      exact huf
    have hvalS : validate_against_schema dbX coll body2 = .ok () := by
      simp [validate_against_schema, hchkX, hc2, hnpX]
    have huS : fetch_unique_field dbX coll body2 = some v := by
      simp [fetch_unique_field, hufX, hb2, JsonValue.asStr]
    have hpS : fetch_parent_id dbX coll body2 = none := by
      simp [fetch_parent_id, hnpX]
    have hanyuX : (tableFor dbX coll).any (fun r => r.uniq = some v) = true := by
      rw [htab1, List.any_eq_true]
      exact ⟨{ id := id1, body := body1, created_at := t1, updated_at := t2,
               owner := owner1, uniq := some v, parent_id := none }, by simp, by simp⟩
    have hanyiX : (tableFor dbX coll).any (fun r => r.id = id2) = false := by
      rw [htab1]
      exact hany2
    simp only [importItem, hvalS, huS, hpS]
    simp [sqlInsert, hanyiX, hanyuX]

/-- Witness for C5: inserting the Welcome post twice into a fresh x-unique
collection gives one success and one Validation error. -/
theorem C5_unique_violation_is_validation_witness :
    ∃ db1, importItem dbUniquePost "post" welcomeBody "U" "i1" 1 1 = .ok (db1, "i1") ∧
      ∃ msg, importItem db1 "post" welcomeBody "U" "i2" 2 2 = .error (.Validation msg) :=
  C5_unique_violation_is_validation dbUniquePost "post" "title" "Welcome" acceptAll
    welcomeBody welcomeBody "U" "U" "i1" "i2" 1 1 2 2
    (by decide) rfl rfl rfl rfl rfl rfl rfl
    (by decide) (by decide) (by decide) (by decide)

/-- C6: for a collection declaring x-parent-id, validation fails with kind
Validation exactly when the document's parent field is missing or not a
string or no row of the parent collection has that id, and passes whenever
such a parent row exists (the plain schema part accepting the document). -/
theorem C6_x_parent_id_live_lookup (db : Database) (coll : String)
    (meta : XParentIdMeta) (chk : JsonValue → Bool) (doc : JsonValue)
    (hmeta : db.parent_ref.find? (fun t => t.1 = coll) = some (coll, meta))
    (hchk : validatorFor db coll = some chk) (hok : chk doc = true) :
    ((∃ msg, validate_against_schema db coll doc = .error (.Validation msg)) ↔
      ¬ ∃ s, (doc.get meta.field).bind JsonValue.asStr = some s ∧
          ∃ r ∈ tableFor db meta.parent, r.id = s) ∧
    ((∃ s, (doc.get meta.field).bind JsonValue.asStr = some s ∧
        ∃ r ∈ tableFor db meta.parent, r.id = s) →
      validate_against_schema db coll doc = .ok ()) := by
  have hred : validate_against_schema db coll doc =
      (match xParentIdValidate db meta doc with
       | .error e => .error (.Validation e)
       | .ok () => .ok ()) := by
    simp [validate_against_schema, hchk, hok, hmeta]
  cases hget : (doc.get meta.field).bind JsonValue.asStr with
  | none =>
    have hx : xParentIdValidate db meta doc =
        .error "x_parent: field value missing or not string" := by
      simp [xParentIdValidate, hget]
    rw [hred, hx]
    constructor
    · constructor
      · intro _ hs
        obtain ⟨s, hs1, _⟩ := hs
        cases hs1
      · intro _
        exact ⟨_, rfl⟩
    · intro hs
      obtain ⟨s, hs1, _⟩ := hs
      cases hs1
  | some s =>
    cases hfind : (tableFor db meta.parent).find? (fun r => r.id = s) with
    | none =>
      have hx : xParentIdValidate db meta doc =
          .error ("x_parent: parent id " ++ s ++ " not found in " ++ meta.parent) := by
        simp [xParentIdValidate, hget, hfind]
      rw [hred, hx]
      have habs : ¬ ∃ s2, (some s = some s2) ∧
          ∃ r ∈ tableFor db meta.parent, r.id = s2 := by
        intro hs
        obtain ⟨s2, hs1, r, hr, hrid⟩ := hs
        cases hs1
        have := List.find?_eq_none.mp hfind r hr
        simp [hrid] at this
      exact ⟨⟨fun _ => habs, fun _ => ⟨_, rfl⟩⟩, fun hs => absurd hs habs⟩
    | some r =>
      have hx : xParentIdValidate db meta doc = .ok () := by
        simp [xParentIdValidate, hget, hfind]
      rw [hred, hx]
      have hpres : ∃ s2, (some s = some s2) ∧
          ∃ r2 ∈ tableFor db meta.parent, r2.id = s2 := by
        refine ⟨s, rfl, r, List.mem_of_find?_eq_some hfind, ?_⟩
        have := List.find?_some hfind
        simpa using this
      constructor
      · constructor
        · intro hmsg
          obtain ⟨msg, hmsg⟩ := hmsg
          cases hmsg
        · intro hc
          exact absurd hpres hc
      · intro _
        rfl

/-- Witness for C6 at a concrete child document referring to the existing
repo row r1. -/
theorem C6_x_parent_id_live_lookup_witness :
    validate_against_schema dbParentCheck "post"
      (.obj [("title", .str "T"), ("repo_id", .str "r1")]) = .ok () :=
  (C6_x_parent_id_live_lookup dbParentCheck "post"
      { parent := "repo", field := "repo_id" } acceptAll
      (.obj [("title", .str "T"), ("repo_id", .str "r1")]) rfl rfl rfl).2
    ⟨"r1", rfl, by decide⟩

/-- C10: a successful update only rewrites the body, updated_at, uniq and
parent_id columns of the rows with the targeted id; every row keeps its id,
owner and created_at, rows with a different id are untouched, the table keeps
its length and the ACL table is unchanged. -/
theorem C10_update_touches_only_target (db : Database) (coll id : String)
    (body : JsonValue) (now : Nat)
    (hval : validate_against_schema db coll body = .ok ())
    (hex : (tableFor db coll).any (fun r => r.id = id) = true) :
    ∃ db2 item, updateItem db coll id body now = .ok (db2, item) ∧
      db2.acls = db.acls ∧
      (tableFor db2 coll).length = (tableFor db coll).length ∧
      ∀ k, k < (tableFor db coll).length →
        ∃ old new2, (tableFor db coll).get? k = some old ∧
          (tableFor db2 coll).get? k = some new2 ∧
          (new2.id = old.id ∧ new2.owner = old.owner ∧
            new2.created_at = old.created_at) ∧
          (old.id ≠ id → new2 = old) ∧
          (old.id = id → new2.body = body ∧ new2.updated_at = now ∧
            new2.uniq = fetch_unique_field db coll body ∧
            new2.parent_id = fetch_parent_id db coll body) := by
  have hne : tableFor db coll ≠ [] := by
    intro hnil
    rw [hnil] at hex
    simp at hex
  have htab := tableFor_exists_of_ne_nil db coll hne
  have htab2 : tableFor (setTable db coll ((tableFor db coll).map
      (updateRowColumns id body now (fetch_unique_field db coll body)
        (fetch_parent_id db coll body)))) coll =
      (tableFor db coll).map (updateRowColumns id body now
        (fetch_unique_field db coll body) (fetch_parent_id db coll body)) :=
    tableFor_setTable_self db coll _ htab
  obtain ⟨r0, hr0, hr0id⟩ := List.any_eq_true.mp hex
  have hr0id2 : r0.id = id := of_decide_eq_true hr0id
  have hsome : (((tableFor db coll).map (updateRowColumns id body now
      (fetch_unique_field db coll body) (fetch_parent_id db coll body))).find?
      (fun r => r.id = id)).isSome = true := by
    rw [List.find?_isSome]
    refine ⟨updateRowColumns id body now (fetch_unique_field db coll body)
      (fetch_parent_id db coll body) r0, List.mem_map_of_mem _ hr0, ?_⟩
    simp [updateRowColumns, hr0id2]
  cases hfind : ((tableFor db coll).map (updateRowColumns id body now
      (fetch_unique_field db coll body) (fetch_parent_id db coll body))).find?
      (fun r => r.id = id) with
  | none => rw [hfind] at hsome; simp at hsome
  | some rr =>
    refine ⟨setTable db coll ((tableFor db coll).map (updateRowColumns id body now
      (fetch_unique_field db coll body) (fetch_parent_id db coll body))),
      rowToItem rr, ?_, rfl, ?_, ?_⟩
    · simp only [updateItem, hval, hex, if_pos]
      simp only [getItem, htab2, hfind]
    · rw [htab2, List.length_map]
    · intro k hk
      have hold : (tableFor db coll).get? k =
          some ((tableFor db coll).get ⟨k, hk⟩) := List.get?_eq_get hk
      refine ⟨(tableFor db coll).get ⟨k, hk⟩,
        updateRowColumns id body now (fetch_unique_field db coll body)
          (fetch_parent_id db coll body) ((tableFor db coll).get ⟨k, hk⟩),
        hold, ?_, ?_⟩
      · rw [htab2, List.get?_map, hold, Option.map_some']
      · by_cases hcase : ((tableFor db coll).get ⟨k, hk⟩).id = id
        · rw [updateRowColumns, if_pos hcase]
          exact ⟨⟨rfl, rfl, rfl⟩, fun hne2 => absurd hcase hne2,
            fun _ => ⟨rfl, rfl, rfl, rfl⟩⟩
        · rw [updateRowColumns, if_neg hcase]
          exact ⟨⟨rfl, rfl, rfl⟩, fun _ => rfl, fun heq => absurd heq hcase⟩

/-- Witness for C10: updating note n1 among two rows succeeds with the frame
facts holding at each index. -/
theorem C10_update_touches_only_target_witness :
    ∃ db2 item, updateItem dbTwoNotes "note" "n1" (.str "one-v2") 9 = .ok (db2, item) ∧
      db2.acls = dbTwoNotes.acls ∧
      (tableFor db2 "note").length = (tableFor dbTwoNotes "note").length ∧
      ∀ k, k < (tableFor dbTwoNotes "note").length →
        ∃ old new2, (tableFor dbTwoNotes "note").get? k = some old ∧
          (tableFor db2 "note").get? k = some new2 ∧
          (new2.id = old.id ∧ new2.owner = old.owner ∧
            new2.created_at = old.created_at) ∧
          (old.id ≠ "n1" → new2 = old) ∧
          (old.id = "n1" → new2.body = .str "one-v2" ∧ new2.updated_at = 9 ∧
            new2.uniq = fetch_unique_field dbTwoNotes "note" (.str "one-v2") ∧
            new2.parent_id = fetch_parent_id dbTwoNotes "note" (.str "one-v2")) :=
  C10_update_touches_only_target dbTwoNotes "note" "n1" (.str "one-v2") 9 rfl rfl

/-- Two sorted row lists that are permutations of each other and have
pairwise-distinct ids are equal (antisymmetry of the id order on rows holds
only where ids do not repeat, hence the bespoke statement). -/
theorem eq_of_perm_sorted_nodupIds : ∀ (l1 l2 : List DataRow), l1.Perm l2 →
    List.Sorted rowLe l1 → List.Sorted rowLe l2 →
    (l1.map (fun r => r.id)).Nodup → l1 = l2 := by
  intro l1
  induction l1 with
  | nil =>
    intro l2 hp _ _ _
    exact (hp.symm.eq_nil).symm
  | cons a t1 ih =>
    intro l2 hp hs1 hs2 hn
    cases l2 with
    | nil => exact absurd (hp.eq_nil) (by simp)
    | cons b t2 =>
      by_cases hab : a = b
      · subst hab
        have ht : t1.Perm t2 := hp.cons_inv
        have htail := ih t2 ht hs1.of_cons hs2.of_cons (List.Nodup.of_cons hn)
        rw [htail]
      · exfalso
        have hain : a ∈ b :: t2 := hp.subset (List.mem_cons_self a t1)
        have hbin : b ∈ a :: t1 := hp.symm.subset (List.mem_cons_self b t2)
        rcases List.mem_cons.mp hain with h1 | h1
        · exact hab h1
        rcases List.mem_cons.mp hbin with h2 | h2
        · exact hab h2.symm
        have h3 : rowLe a b := List.rel_of_sorted_cons hs1 b h2
        have h4 : rowLe b a := List.rel_of_sorted_cons hs2 a h1
        have heq : a.id = b.id := le_antisymm h3 h4
        have hm : a.id ∈ t1.map (fun r => r.id) :=
          List.mem_map.mpr ⟨b, h2, heq.symm⟩
        have hnc := List.nodup_cons.mp hn
        exact hnc.1 hm

/-- On a sorted, distinct-id row list, keeping the rows whose id is at least
the id found at position i keeps exactly the suffix from i. -/
theorem sorted_filter_ge_drop : ∀ (s : List DataRow), List.Sorted rowLe s →
    (s.map (fun r => r.id)).Nodup → ∀ (i : Nat) (hi : i < s.length),
    s.filter (fun r => decide ((s.get ⟨i, hi⟩).id ≤ r.id)) = s.drop i := by
  intro s
  induction s with
  | nil => intro _ _ i hi; simp at hi
  | cons a t ihs =>
    intro hs hn i hi
    cases i with
    | zero =>
      have hall : ∀ r ∈ a :: t,
          decide (((a :: t).get ⟨0, hi⟩).id ≤ r.id) = true := by
        intro r hr
        rcases List.mem_cons.mp hr with rfl | hr2
        · simp
        · exact decide_eq_true (List.rel_of_sorted_cons hs r hr2)
      rw [List.filter_eq_self.mpr hall]
      rfl
    | succ j =>
      have hj : j < t.length := Nat.lt_of_succ_lt_succ hi
      have hmem : t.get ⟨j, hj⟩ ∈ t := t.get_mem j hj
      have hle : a.id ≤ (t.get ⟨j, hj⟩).id := List.rel_of_sorted_cons hs _ hmem
      have hne2 : a.id ≠ (t.get ⟨j, hj⟩).id := by
        intro he
        have hnc := List.nodup_cons.mp hn
        exact hnc.1 (List.mem_map.mpr ⟨t.get ⟨j, hj⟩, hmem, he.symm⟩)
      have hnotle : ¬ ((t.get ⟨j, hj⟩).id ≤ a.id) := by
        intro hle2
        exact hne2 (le_antisymm hle hle2)
      have hstep := ihs hs.of_cons (List.Nodup.of_cons hn) j hj
      show List.filter (fun r => decide ((t.get ⟨j, hj⟩).id ≤ r.id)) (a :: t) = t.drop j
      rw [List.filter_cons]
      simp only [decide_eq_true_eq]
      rw [if_neg (by simpa using hnotle)]
      exact hstep

/-- The listing query with a null marker selects all owner rows in id order,
capped at limit+1. -/
theorem queryByOwner_none (db : Database) (coll owner : String) (limit : Nat) :
    queryByOwner db coll owner none limit =
      (sortedOwnerRows db coll owner).take (limit + 1) := by
  unfold queryByOwner sortedOwnerRows ownerRows
  congr 2
  apply List.filter_congr
  intro x _
  simp

/-- The listing query with the id at position i of the sorted owner rows as
marker selects exactly the suffix from i, capped at limit+1. -/
theorem queryByOwner_marker (db : Database) (coll owner : String)
    (hN : ((tableFor db coll).map (fun r => r.id)).Nodup)
    (i : Nat) (hi : i < (sortedOwnerRows db coll owner).length) (limit : Nat) :
    queryByOwner db coll owner
        (some (((sortedOwnerRows db coll owner).get ⟨i, hi⟩).id)) limit =
      ((sortedOwnerRows db coll owner).drop i).take (limit + 1) := by
  have hsorted : List.Sorted rowLe (sortedOwnerRows db coll owner) :=
    List.sorted_insertionSort rowLe _
  have hperm : (sortedOwnerRows db coll owner).Perm (ownerRows db coll owner) :=
    List.perm_insertionSort rowLe _
  have hnodupO : ((ownerRows db coll owner).map (fun r => r.id)).Nodup :=
    hN.sublist ((List.filter_sublist _).map _)
  have hnodupS : ((sortedOwnerRows db coll owner).map (fun r => r.id)).Nodup :=
    ((hperm.map _).nodup_iff).mpr hnodupO
  have step1 : (tableFor db coll).filter (fun r =>
      r.owner = owner && decide ((((sortedOwnerRows db coll owner).get ⟨i, hi⟩).id : String) ≤ r.id)) =
      (ownerRows db coll owner).filter (fun r =>
        decide (((sortedOwnerRows db coll owner).get ⟨i, hi⟩).id ≤ r.id)) := by
    unfold ownerRows
    rw [List.filter_filter]
    apply List.filter_congr
    intro x _
    exact Bool.and_comm _ _
  have step2 : List.insertionSort rowLe ((ownerRows db coll owner).filter (fun r =>
      decide (((sortedOwnerRows db coll owner).get ⟨i, hi⟩).id ≤ r.id))) =
      (sortedOwnerRows db coll owner).filter (fun r =>
        decide (((sortedOwnerRows db coll owner).get ⟨i, hi⟩).id ≤ r.id)) := by
    apply eq_of_perm_sorted_nodupIds
    · exact (List.perm_insertionSort rowLe _).trans (hperm.filter _).symm
    · exact List.sorted_insertionSort rowLe _
    · exact hsorted.filter _
    · have hsub : ((ownerRows db coll owner).filter (fun r =>
          decide (((sortedOwnerRows db coll owner).get ⟨i, hi⟩).id ≤ r.id))).Sublist
          (ownerRows db coll owner) := List.filter_sublist _
      have hfil : (((ownerRows db coll owner).filter (fun r =>
          decide (((sortedOwnerRows db coll owner).get ⟨i, hi⟩).id ≤ r.id))).map
          (fun r => r.id)).Nodup := hnodupO.sublist (hsub.map _)
      exact (((List.perm_insertionSort rowLe _).map _).nodup_iff).mpr hfil
  have step3 : (sortedOwnerRows db coll owner).filter (fun r =>
      decide (((sortedOwnerRows db coll owner).get ⟨i, hi⟩).id ≤ r.id)) =
      (sortedOwnerRows db coll owner).drop i :=
    sorted_filter_ge_drop _ hsorted hnodupS i hi
  show (List.insertionSort rowLe ((tableFor db coll).filter (fun r =>
      r.owner = owner && decide (((sortedOwnerRows db coll owner).get ⟨i, hi⟩).id ≤ r.id)))).take
      (limit + 1) = _
  rw [step1, step2, step3]

/-- The page loop on a query capped at limit+1 rows produces the first limit
rows and, when a (limit+1)th row exists, its id as next marker. -/
theorem pageLoop_take : ∀ (limit : Nat) (l : List DataRow),
    pageLoop (l.take (limit + 1)) limit =
      ((l.take limit).map rowToItem, (l.get? limit).map (fun r => r.id)) := by
  intro limit
  induction limit with
  | zero =>
    intro l
    cases l with
    | nil => rfl
    | cons a t => rfl
  | succ k ihk =>
    intro l
    cases l with
    | nil => rfl
    | cons a t =>
      show pageLoop (a :: t.take (k + 1)) (k + 1) = _
      unfold pageLoop
      rw [ihk t]
      rfl

/-- Following the marker placed at position i of the sorted owner rows
consumes exactly the suffix from i and ends with a null marker, given enough
fuel (one unit per page). -/
theorem followPages_from (db : Database) (coll owner : String) (limit : Nat)
    (hpos : 0 < limit)
    (hN : ((tableFor db coll).map (fun r => r.id)).Nodup) :
    ∀ (fuel i : Nat) (hi : i < (sortedOwnerRows db coll owner).length),
      (sortedOwnerRows db coll owner).length - i ≤ fuel →
      followPages db coll owner limit fuel
        (some (((sortedOwnerRows db coll owner).get ⟨i, hi⟩).id)) =
        (((sortedOwnerRows db coll owner).drop i).map rowToItem, none) := by
  intro fuel
  induction fuel with
  | zero => intro i hi hf; omega
  | succ f ihf =>
    intro i hi hf
    have hpage : list_by_owner db coll owner
        (some (((sortedOwnerRows db coll owner).get ⟨i, hi⟩).id)) limit =
        ((((sortedOwnerRows db coll owner).drop i).take limit).map rowToItem,
          (((sortedOwnerRows db coll owner).drop i).get? limit).map (fun r => r.id)) := by
      unfold list_by_owner
      rw [queryByOwner_marker db coll owner hN i hi limit, pageLoop_take]
    unfold followPages
    rw [hpage]
    cases hnext : ((sortedOwnerRows db coll owner).drop i).get? limit with
    | none =>
      have hlen : ((sortedOwnerRows db coll owner).drop i).length ≤ limit :=
        List.get?_eq_none.mp hnext
      have htake : ((sortedOwnerRows db coll owner).drop i).take limit =
          (sortedOwnerRows db coll owner).drop i := List.take_of_length_le hlen
      simp only [Option.map_none']
      rw [htake]
    | some r =>
      have hr2 : (sortedOwnerRows db coll owner).get? (i + limit) = some r := by
        rw [← List.get?_drop]
        exact hnext
      have hlt2 : i + limit < (sortedOwnerRows db coll owner).length := by
        by_contra hcon
        rw [List.get?_eq_none.mpr (Nat.le_of_not_lt hcon)] at hr2
        cases hr2
      have hrid : r = (sortedOwnerRows db coll owner).get ⟨i + limit, hlt2⟩ := by
        have := List.get?_eq_get hlt2
        rw [this] at hr2
        exact (Option.some.inj hr2).symm
      have hrec := ihf (i + limit) hlt2 (by omega)
      simp only [Option.map_some']
      rw [hrid, hrec]
      have hjoin : (((sortedOwnerRows db coll owner).drop i).take limit).map rowToItem ++
          ((sortedOwnerRows db coll owner).drop (i + limit)).map rowToItem =
          ((sortedOwnerRows db coll owner).drop i).map rowToItem := by
        rw [← List.map_append]
        congr 1
        rw [← List.drop_drop]
        exact List.take_append_drop limit _
      rw [hjoin]

/-- C3 counterexample: one row under the owner and limit = N = 1 gives a full
first page with a null marker, refuting the claim that every limit up to and
including N comes with a non-null next marker. -/
theorem C3_counterexample :
    (ownerRows dbOneNote "note" "A").length = 1 ∧
    (list_by_owner dbOneNote "note" "A" none 1).1.length = 1 ∧
    (list_by_owner dbOneNote "note" "A" none 1).2 = none := by
  decide

/-- C3 amended: with pairwise-distinct ids, a positive limit strictly below
the number N of owner rows, the first page is exactly the first limit sorted
rows with the (limit+1)th id as non-null marker, that row is excluded from
the page, following markers to exhaustion returns every owner row exactly
once in id order with a final null marker (for limit = N the first page is
already the whole set with a null marker, as the counterexample shows). -/
theorem C3_pagination_keyset (db : Database) (coll owner : String) (limit : Nat)
    (hN : ((tableFor db coll).map (fun r => r.id)).Nodup)
    (hpos : 0 < limit)
    (hlt : limit < (sortedOwnerRows db coll owner).length) :
    (list_by_owner db coll owner none limit).1 =
      ((sortedOwnerRows db coll owner).take limit).map rowToItem ∧
    (list_by_owner db coll owner none limit).1.length = limit ∧
    (list_by_owner db coll owner none limit).2 =
      some (((sortedOwnerRows db coll owner).get ⟨limit, hlt⟩).id) ∧
    (∀ it ∈ (list_by_owner db coll owner none limit).1,
      it.id ≠ ((sortedOwnerRows db coll owner).get ⟨limit, hlt⟩).id) ∧
    followPages db coll owner limit (sortedOwnerRows db coll owner).length none =
      ((sortedOwnerRows db coll owner).map rowToItem, none) ∧
    (((sortedOwnerRows db coll owner).map rowToItem).map (fun it => it.id)).Nodup ∧
    (sortedOwnerRows db coll owner).Perm (ownerRows db coll owner) := by
  have hperm : (sortedOwnerRows db coll owner).Perm (ownerRows db coll owner) :=
    List.perm_insertionSort rowLe _
  have hnodupO : ((ownerRows db coll owner).map (fun r => r.id)).Nodup :=
    hN.sublist ((List.filter_sublist _).map _)
  have hnodupS : ((sortedOwnerRows db coll owner).map (fun r => r.id)).Nodup :=
    ((hperm.map _).nodup_iff).mpr hnodupO
  have hpage1 : list_by_owner db coll owner none limit =
      (((sortedOwnerRows db coll owner).take limit).map rowToItem,
        ((sortedOwnerRows db coll owner).get? limit).map (fun r => r.id)) := by
    unfold list_by_owner
    rw [queryByOwner_none, pageLoop_take]
  have hget : (sortedOwnerRows db coll owner).get? limit =
      some ((sortedOwnerRows db coll owner).get ⟨limit, hlt⟩) := List.get?_eq_get hlt
  refine ⟨by rw [hpage1], ?_, ?_, ?_, ?_, ?_, hperm⟩
  · rw [hpage1]
    simp only [List.length_map]
    rw [List.length_take]
    omega
  · rw [hpage1, hget]
    rfl
  · intro it hit
    rw [hpage1] at hit
    obtain ⟨r, hrmem, hrit⟩ := List.mem_map.mp hit
    intro hideq
    have hrid : r.id = ((sortedOwnerRows db coll owner).get ⟨limit, hlt⟩).id := by
      rw [← hideq, ← hrit]
      rfl
    have hrS : r ∈ sortedOwnerRows db coll owner :=
      (List.take_sublist limit _).mem hrmem
    have hgS : (sortedOwnerRows db coll owner).get ⟨limit, hlt⟩ ∈
        sortedOwnerRows db coll owner := List.get_mem _ limit hlt
    have hreq : r = (sortedOwnerRows db coll owner).get ⟨limit, hlt⟩ :=
      List.inj_on_of_nodup_map hnodupS hrS hgS hrid
    have hnodupRows : (sortedOwnerRows db coll owner).Nodup := hnodupS.of_map
    have hsplit := List.take_append_drop limit (sortedOwnerRows db coll owner)
    have hnodupApp : ((sortedOwnerRows db coll owner).take limit ++
        (sortedOwnerRows db coll owner).drop limit).Nodup := by
      rw [hsplit]
      exact hnodupRows
    have hdisj := (List.nodup_append.mp hnodupApp).2.2
    have hgdrop : (sortedOwnerRows db coll owner).get ⟨limit, hlt⟩ ∈
        (sortedOwnerRows db coll owner).drop limit := by
      have h0 : ((sortedOwnerRows db coll owner).drop limit).get? 0 =
          some ((sortedOwnerRows db coll owner).get ⟨limit, hlt⟩) := by
        rw [List.get?_drop]
        simpa using hget
      exact List.get?_mem h0
    exact hdisj (hreq ▸ hrmem) hgdrop
  · cases hNlen : (sortedOwnerRows db coll owner).length with
    | zero => omega
    | succ k =>
      unfold followPages
      rw [hpage1, hget]
      simp only [Option.map_some']
      have hrec := followPages_from db coll owner limit hpos hN k limit hlt (by omega)
      rw [hrec]
      rw [← List.map_append, List.take_append_drop]
  · have hmm : ((sortedOwnerRows db coll owner).map rowToItem).map (fun it => it.id) =
        (sortedOwnerRows db coll owner).map (fun r => r.id) := by
      rw [List.map_map]
      rfl
    rw [hmm]
    exact hnodupS

/-- Witness for the amended C3 at three concrete rows and limit 2. -/
theorem C3_pagination_keyset_witness :
    (list_by_owner dbThreePosts "post" "A" none 2).1 =
      ((sortedOwnerRows dbThreePosts "post" "A").take 2).map rowToItem ∧
    (list_by_owner dbThreePosts "post" "A" none 2).1.length = 2 ∧
    (list_by_owner dbThreePosts "post" "A" none 2).2 =
      some (((sortedOwnerRows dbThreePosts "post" "A").get
        ⟨2, by rw [sortedOwnerRows, List.length_insertionSort]; decide⟩).id) ∧
    (∀ it ∈ (list_by_owner dbThreePosts "post" "A" none 2).1,
      it.id ≠ ((sortedOwnerRows dbThreePosts "post" "A").get
        ⟨2, by rw [sortedOwnerRows, List.length_insertionSort]; decide⟩).id) ∧
    followPages dbThreePosts "post" "A" 2
        (sortedOwnerRows dbThreePosts "post" "A").length none =
      ((sortedOwnerRows dbThreePosts "post" "A").map rowToItem, none) ∧
    (((sortedOwnerRows dbThreePosts "post" "A").map rowToItem).map
      (fun it => it.id)).Nodup ∧
    (sortedOwnerRows dbThreePosts "post" "A").Perm (ownerRows dbThreePosts "post" "A") :=
  C3_pagination_keyset dbThreePosts "post" "A" 2 (by decide) (by decide)
    (by
      rw [sortedOwnerRows, List.length_insertionSort]
      decide)

/-- Parsing the stored form of a level returns the level. -/
theorem levelFromStr_levelToString (lv : AccessLevel) :
    levelFromStr (levelToString lv) = .ok lv := by
  cases lv <;> rfl

/-- What the permission-row loop guarantees on success: users in order, and a
row/permission correspondence in both directions. -/
theorem collectPerms_spec (data_id : String) : ∀ (rows : List AclRow)
    (ps : List PermissionSchema), collectPerms data_id rows = .ok ps →
    ps.map (fun p => p.user_id) = rows.map (fun r => r.user_id) ∧
    (∀ p ∈ ps, ∃ r ∈ rows, r.user_id = p.user_id ∧
      levelFromStr r.permission = .ok p.access_level) ∧
    (∀ r ∈ rows, ∃ p ∈ ps, p.user_id = r.user_id ∧
      levelFromStr r.permission = .ok p.access_level) := by
  intro rows
  induction rows with
  | nil =>
    intro ps h
    cases h
    exact ⟨rfl, by simp, by simp⟩
  | cons r rest ih =>
    intro ps h
    unfold collectPerms at h
    cases hl : levelFromStr r.permission with
    | error e => rw [hl] at h; cases h
    | ok lv =>
      rw [hl] at h
      cases ht : collectPerms data_id rest with
      | error e => rw [ht] at h; cases h
      | ok tail =>
        rw [ht] at h
        cases h
        obtain ⟨ihm, ihA, ihB⟩ := ih tail ht
        refine ⟨by simp [ihm], ?_, ?_⟩
        · intro p hp
          rcases List.mem_cons.mp hp with rfl | hp2
          · exact ⟨r, List.mem_cons_self r rest, rfl, hl⟩
          · obtain ⟨r2, hr2, h1, h2⟩ := ihA p hp2
            exact ⟨r2, List.mem_cons_of_mem _ hr2, h1, h2⟩
        · intro r2 hr2
          rcases List.mem_cons.mp hr2 with rfl | hr3
          · exact ⟨_, List.mem_cons_self _ tail, rfl, hl⟩
          · obtain ⟨p, hp, h1, h2⟩ := ihB r2 hr3
            exact ⟨p, List.mem_cons_of_mem _ hp, h1, h2⟩

/-- Folding HashMap inserts over keys disjoint from the accumulator appends
the pairs in order. -/
theorem hmFold_eq : ∀ (ps : List PermissionSchema)
    (acc : List (String × PermissionSchema)),
    (ps.map (fun p => p.user_id)).Nodup →
    (∀ p ∈ ps, ∀ q ∈ acc, q.1 ≠ p.user_id) →
    ps.foldl (fun m p => hmInsert m p.user_id p) acc =
      acc ++ ps.map (fun p => (p.user_id, p)) := by
  intro ps
  induction ps with
  | nil => intro acc _ _; simp
  | cons p rest ih =>
    intro acc hnd hdisj
    show rest.foldl _ (hmInsert acc p.user_id p) = _
    have hany : acc.any (fun q => q.1 = p.user_id) = false := by
      rw [List.any_eq_false]
      intro q hq
      simp [hdisj p (List.mem_cons_self p rest) q hq]
    have hins : hmInsert acc p.user_id p = acc ++ [(p.user_id, p)] := by
      unfold hmInsert
      rw [hany]
      simp
    rw [hins, ih (acc ++ [(p.user_id, p)]) (List.Nodup.of_cons hnd) ?_]
    · simp
    · intro p2 hp2 q hq
      rcases List.mem_append.mp hq with h1 | h1
      · exact hdisj p2 (List.mem_cons_of_mem _ hp2) q h1
      · have hq2 : q = (p.user_id, p) := by simpa using h1
        rw [hq2]
        intro hcon
        have hpn := List.nodup_cons.mp hnd
        exact hpn.1 (List.mem_map.mpr ⟨p2, hp2, hcon.symm⟩)

/-- With pairwise-distinct users, the HashMap built from the new permissions
is exactly the association list of (user, permission) pairs. -/
theorem hmFromIter_eq (ps : List PermissionSchema)
    (h : (ps.map (fun p => p.user_id)).Nodup) :
    hmFromIter ps = ps.map (fun p => (p.user_id, p)) := by
  unfold hmFromIter
  rw [hmFold_eq ps [] h (by simp)]
  simp

/-- Folding the per-user DELETE over the ACL rows keeps exactly the rows not
matching any removed user of the triple key. -/
theorem foldl_delete_mem (coll dataId : String) : ∀ (dels : List String)
    (acls : List AclRow) (r : AclRow),
    (r ∈ dels.foldl (fun acc uid => acc.filter (fun r2 =>
      ¬(r2.data_collection = coll ∧ r2.data_id = dataId ∧ r2.user_id = uid))) acls) ↔
    (r ∈ acls ∧ ¬(r.data_collection = coll ∧ r.data_id = dataId ∧ r.user_id ∈ dels)) := by
  intro dels
  induction dels with
  | nil => intro acls r; simp
  | cons d rest ih =>
    intro acls r
    show (r ∈ rest.foldl _ (acls.filter _)) ↔ _
    rw [ih]
    rw [List.mem_filter]
    simp only [decide_not, Bool.not_eq_true', decide_eq_false_iff_not, List.mem_cons]
    constructor
    · rintro ⟨⟨hmem, hnot1⟩, hnot2⟩
      refine ⟨hmem, ?_⟩
      rintro ⟨h1, h2, h3 | h3⟩
      · exact hnot1 ⟨h1, h2, h3⟩
      · exact hnot2 ⟨h1, h2, h3⟩
    · rintro ⟨hmem, hnot⟩
      refine ⟨⟨hmem, ?_⟩, ?_⟩
      · rintro ⟨h1, h2, h3⟩
        exact hnot ⟨h1, h2, Or.inl h3⟩
      · rintro ⟨h1, h2, h3⟩
        exact hnot ⟨h1, h2, Or.inr h3⟩

/-- A fold of per-element maps is a single map of the pointwise fold. -/
theorem foldl_map_comm {α β : Type} (f : α → β → β) : ∀ (l : List α) (xs : List β),
    l.foldl (fun acc p => acc.map (f p)) xs =
      xs.map (fun x => l.foldl (fun y p => f p y) x) := by
  intro l
  induction l with
  | nil => intro xs; simp
  | cons p rest ih =>
    intro xs
    show rest.foldl _ (xs.map (f p)) = _
    rw [ih, List.map_map]
    rfl

/-- The pointwise UPDATE fold never changes the key columns of a row. -/
theorem foldlUpd_fields (coll dataId : String) (now : Nat) :
    ∀ (ups : List PermissionSchema) (r : AclRow),
    (ups.foldl (fun y p => updAclRow coll dataId now p y) r).data_collection =
      r.data_collection ∧
    (ups.foldl (fun y p => updAclRow coll dataId now p y) r).data_id = r.data_id ∧
    (ups.foldl (fun y p => updAclRow coll dataId now p y) r).user_id = r.user_id := by
  intro ups
  induction ups with
  | nil => intro r; exact ⟨rfl, rfl, rfl⟩
  | cons p rest ih =>
    intro r
    show (rest.foldl _ (updAclRow coll dataId now p r)).data_collection = _ ∧ _
    obtain ⟨h1, h2, h3⟩ := ih (updAclRow coll dataId now p r)
    have hfix : (updAclRow coll dataId now p r).data_collection = r.data_collection ∧
        (updAclRow coll dataId now p r).data_id = r.data_id ∧
        (updAclRow coll dataId now p r).user_id = r.user_id := by
      unfold updAclRow
      by_cases hc : r.data_collection = coll ∧ r.data_id = dataId ∧ r.user_id = p.user_id
      · rw [if_pos hc]; exact ⟨rfl, rfl, rfl⟩
      · rw [if_neg hc]; exact ⟨rfl, rfl, rfl⟩
    exact ⟨h1.trans hfix.1, h2.trans hfix.2.1, h3.trans hfix.2.2⟩

/-- The pointwise UPDATE fold leaves a row alone when no update targets its
user. -/
theorem foldlUpd_no_match (coll dataId : String) (now : Nat) :
    ∀ (ups : List PermissionSchema) (r : AclRow),
    (∀ p ∈ ups, p.user_id ≠ r.user_id) →
    ups.foldl (fun y p => updAclRow coll dataId now p y) r = r := by
  intro ups
  induction ups with
  | nil => intro r _; rfl
  | cons p rest ih =>
    intro r hno
    show rest.foldl _ (updAclRow coll dataId now p r) = r
    have hstep : updAclRow coll dataId now p r = r := by
      unfold updAclRow
      rw [if_neg]
      rintro ⟨_, _, h3⟩
      exact hno p (List.mem_cons_self p rest) h3.symm
    rw [hstep]
    exact ih r (fun q hq => hno q (List.mem_cons_of_mem _ hq))

/-- The pointwise UPDATE fold rewrites the permission of a matching row to
the (unique) update targeting its user. -/
theorem foldlUpd_match (coll dataId : String) (now : Nat) :
    ∀ (ups : List PermissionSchema) (r : AclRow) (p : PermissionSchema),
    (ups.map (fun x => x.user_id)).Nodup → p ∈ ups →
    r.data_collection = coll → r.data_id = dataId → r.user_id = p.user_id →
    ups.foldl (fun y q => updAclRow coll dataId now q y) r =
      { r with permission := levelToString p.access_level, updated_at := now } := by
  intro ups
  induction ups with
  | nil => intro r p _ hp; simp at hp
  | cons q rest ih =>
    intro r p hnd hp hdc hdi huser
    show rest.foldl _ (updAclRow coll dataId now q r) = _
    rcases List.mem_cons.mp hp with rfl | hp2
    · have hstep : updAclRow coll dataId now p r =
          { r with permission := levelToString p.access_level, updated_at := now } := by
        unfold updAclRow
        rw [if_pos ⟨hdc, hdi, huser⟩]
      rw [hstep]
      apply foldlUpd_no_match
      intro p2 hp2 hcon
      have hpn := List.nodup_cons.mp hnd
      exact hpn.1 (List.mem_map.mpr ⟨p2, hp2, hcon.trans huser⟩)
    · have hqne : q.user_id ≠ p.user_id := by
        intro hcon
        have hpn := List.nodup_cons.mp hnd
        exact hpn.1 (List.mem_map.mpr ⟨p, hp2, hcon.symm⟩)
      have hstep : updAclRow coll dataId now q r = r := by
        unfold updAclRow
        rw [if_neg]
        rintro ⟨_, _, h3⟩
        exact hqne (huser ▸ h3).symm
      rw [hstep]
      exact ih r p (List.Nodup.of_cons hnd) hp2 hdc hdi huser

/-- Every row the INSERT loop produces carries the triple key and the stored
form of a remaining permission. -/
theorem insertRows_mem (coll dataId owner : String) (now : Nat)
    (freshId : Nat → String) : ∀ (l : List (String × PermissionSchema)) (n : Nat)
    (r : AclRow), r ∈ insertRows coll dataId owner now freshId n l →
    ∃ q ∈ l, r.data_collection = coll ∧ r.data_id = dataId ∧
      r.user_id = q.2.user_id ∧ r.permission = levelToString q.2.access_level := by
  intro l
  induction l with
  | nil => intro n r h; simp [insertRows] at h
  | cons q rest ih =>
    intro n r h
    rcases List.mem_cons.mp h with rfl | h2
    · exact ⟨q, List.mem_cons_self q rest, rfl, rfl, rfl, rfl⟩
    · obtain ⟨q2, hq2, hf⟩ := ih (n + 1) r h2
      exact ⟨q2, List.mem_cons_of_mem _ hq2, hf⟩

/-- Every remaining permission yields a row of the INSERT loop with the
triple key and its stored form. -/
theorem insertRows_exists (coll dataId owner : String) (now : Nat)
    (freshId : Nat → String) : ∀ (l : List (String × PermissionSchema)) (n : Nat)
    (q : String × PermissionSchema), q ∈ l →
    ∃ r ∈ insertRows coll dataId owner now freshId n l,
      r.data_collection = coll ∧ r.data_id = dataId ∧
      r.user_id = q.2.user_id ∧ r.permission = levelToString q.2.access_level := by
  intro l
  induction l with
  | nil => intro n q h; simp at h
  | cons q0 rest ih =>
    intro n q h
    rcases List.mem_cons.mp h with rfl | h2
    · exact ⟨_, List.mem_cons_self _ _, rfl, rfl, rfl, rfl⟩
    · obtain ⟨r, hr, hf⟩ := ih (n + 1) q h2
      exact ⟨r, List.mem_cons_of_mem _ hr, hf⟩

/-- What the classification loop of update_acls computes, provided the old
users and the map keys are each pairwise distinct and every map entry is
keyed by its permission's user: the remaining map holds exactly the entries
for users absent from the old set, the deletions are exactly the old users
absent from the map, the updates are exactly the map entries whose old level
differs, and the updates target pairwise-distinct users. -/
theorem classifyLoop_spec : ∀ (old : List PermissionSchema)
    (m : List (String × PermissionSchema)),
    (old.map (fun p => p.user_id)).Nodup →
    (m.map Prod.fst).Nodup →
    (∀ q ∈ m, q.1 = q.2.user_id) →
    (∀ q, q ∈ (classifyLoop old m).2.2 ↔ q ∈ m ∧ ∀ p ∈ old, p.user_id ≠ q.1) ∧
    (∀ u, u ∈ (classifyLoop old m).1 ↔
      ∃ p ∈ old, p.user_id = u ∧ ∀ q ∈ m, q.1 ≠ u) ∧
    (∀ x, x ∈ (classifyLoop old m).2.1 ↔ ∃ q ∈ m, q.2 = x ∧
      ∃ p ∈ old, p.user_id = q.1 ∧ p.access_level ≠ x.access_level) ∧
    ((classifyLoop old m).2.1.map (fun x => x.user_id)).Nodup := by
  intro old
  induction old with
  | nil =>
    intro m _ _ _
    refine ⟨by simp [classifyLoop], by simp [classifyLoop], by simp [classifyLoop],
      by simp [classifyLoop]⟩
  | cons o rest ih =>
    intro m hOldNd hMk hMc
    have hOu : o.user_id ∉ rest.map (fun p => p.user_id) := (List.nodup_cons.mp hOldNd).1
    have hM2k : ((m.filter (fun q => q.1 ≠ o.user_id)).map Prod.fst).Nodup :=
      hMk.sublist ((List.filter_sublist _).map _)
    have hM2c : ∀ q ∈ m.filter (fun q => q.1 ≠ o.user_id), q.1 = q.2.user_id :=
      fun q hq => hMc q (List.mem_filter.mp hq).1
    obtain ⟨ih1, ih2, ih3, ih4⟩ :=
      ih (m.filter (fun q => q.1 ≠ o.user_id)) (List.Nodup.of_cons hOldNd) hM2k hM2c
    have hm2mem : ∀ q, q ∈ m.filter (fun q => q.1 ≠ o.user_id) ↔
        q ∈ m ∧ q.1 ≠ o.user_id := by
      intro q
      rw [List.mem_filter]
      simp
    have hcl : classifyLoop (o :: rest) m =
        (match (m.find? (fun q => q.1 = o.user_id)).map (fun q => q.2) with
         | some newP =>
           if newP.access_level ≠ o.access_level then
             ((classifyLoop rest (m.filter (fun q => q.1 ≠ o.user_id))).1,
              newP :: (classifyLoop rest (m.filter (fun q => q.1 ≠ o.user_id))).2.1,
              (classifyLoop rest (m.filter (fun q => q.1 ≠ o.user_id))).2.2)
           else classifyLoop rest (m.filter (fun q => q.1 ≠ o.user_id))
         | none =>
           (o.user_id :: (classifyLoop rest (m.filter (fun q => q.1 ≠ o.user_id))).1,
            (classifyLoop rest (m.filter (fun q => q.1 ≠ o.user_id))).2.1,
            (classifyLoop rest (m.filter (fun q => q.1 ≠ o.user_id))).2.2)) := rfl
    cases hF : m.find? (fun q => q.1 = o.user_id) with
    | none =>
      have hnone : ∀ q ∈ m, q.1 ≠ o.user_id := by
        intro q hq
        have := List.find?_eq_none.mp hF q hq
        simpa using this
      rw [hcl, hF]
      simp only [Option.map_none']
      refine ⟨?_, ?_, ?_, ih4⟩
      · intro q
        show q ∈ (classifyLoop rest (m.filter (fun q => q.1 ≠ o.user_id))).2.2 ↔ _
        rw [ih1 q, hm2mem q]
        constructor
        · rintro ⟨⟨hm, hne⟩, hall⟩
          refine ⟨hm, ?_⟩
          intro p hp
          rcases List.mem_cons.mp hp with rfl | hp2
          · exact fun hcon => hne hcon.symm
          · exact hall p hp2
        · rintro ⟨hm, hall⟩
          exact ⟨⟨hm, hnone q hm⟩, fun p hp => hall p (List.mem_cons_of_mem _ hp)⟩
      · intro u
        show u ∈ o.user_id :: (classifyLoop rest (m.filter (fun q => q.1 ≠ o.user_id))).1 ↔ _
        constructor
        · intro hu
          rcases List.mem_cons.mp hu with rfl | hu2
          · exact ⟨o, List.mem_cons_self o rest, rfl, fun q hq => hnone q hq⟩
          · obtain ⟨p, hp, hpu, hall⟩ := (ih2 u).mp hu2
            refine ⟨p, List.mem_cons_of_mem _ hp, hpu, ?_⟩
            intro q hq
            by_cases hkey : q.1 = o.user_id
            · exact absurd hkey (hnone q hq)
            · exact hall q ((hm2mem q).mpr ⟨hq, hkey⟩)
        · rintro ⟨p, hp, hpu, hall⟩
          rcases List.mem_cons.mp hp with rfl | hp2
          · rw [← hpu]
            exact List.mem_cons_self _ _
          · refine List.mem_cons_of_mem _ ((ih2 u).mpr ⟨p, hp2, hpu, ?_⟩)
            intro q hq
            exact hall q ((hm2mem q).mp hq).1
      · intro x
        show x ∈ (classifyLoop rest (m.filter (fun q => q.1 ≠ o.user_id))).2.1 ↔ _
        rw [ih3 x]
        constructor
        · rintro ⟨q, hq, hq2, p, hp, hpu, hl⟩
          exact ⟨q, ((hm2mem q).mp hq).1, hq2, p, List.mem_cons_of_mem _ hp, hpu, hl⟩
        · rintro ⟨q, hq, hq2, p, hp, hpu, hl⟩
          rcases List.mem_cons.mp hp with rfl | hp2
          · exact absurd hpu.symm (hnone q hq)
          · have hne : q.1 ≠ o.user_id := by
              rw [← hpu]
              intro hcon
              exact hOu (hcon ▸ List.mem_map_of_mem _ hp2)
            exact ⟨q, (hm2mem q).mpr ⟨hq, hne⟩, hq2, p, hp2, hpu, hl⟩
    | some q0 =>
      have hq0mem : q0 ∈ m := List.mem_of_find?_eq_some hF
      have hq0key : q0.1 = o.user_id := by
        have := List.find?_some hF
        simpa using this
      have hqofm : ∀ q ∈ m, q.1 = o.user_id → q = q0 := by
        intro q hq hkey
        exact List.inj_on_of_nodup_map hMk hq hq0mem (hkey.trans hq0key.symm)
      rw [hcl, hF]
      simp only [Option.map_some']
      by_cases hlev : q0.2.access_level ≠ o.access_level
      · rw [if_pos hlev]
        refine ⟨?_, ?_, ?_, ?_⟩
        · intro q
          show q ∈ (classifyLoop rest (m.filter (fun q => q.1 ≠ o.user_id))).2.2 ↔ _
          rw [ih1 q]
          rw [hm2mem q]
          constructor
          · rintro ⟨⟨hm, hne⟩, hall⟩
            refine ⟨hm, ?_⟩
            intro p hp
            rcases List.mem_cons.mp hp with rfl | hp2
            · exact fun hcon => hne hcon.symm
            · exact hall p hp2
          · rintro ⟨hm, hall⟩
            exact ⟨⟨hm, fun hcon => hall o (List.mem_cons_self o rest) hcon.symm⟩,
              fun p hp => hall p (List.mem_cons_of_mem _ hp)⟩
        · intro u
          show u ∈ (classifyLoop rest (m.filter (fun q => q.1 ≠ o.user_id))).1 ↔ _
          rw [ih2 u]
          constructor
          · rintro ⟨p, hp, hpu, hall⟩
            refine ⟨p, List.mem_cons_of_mem _ hp, hpu, ?_⟩
            intro q hq
            by_cases hkey : q.1 = o.user_id
            · rw [hkey]
              intro hcon
              apply hOu
              rw [hcon, ← hpu]
              exact List.mem_map_of_mem _ hp
            · exact hall q ((hm2mem q).mpr ⟨hq, hkey⟩)
          · rintro ⟨p, hp, hpu, hall⟩
            rcases List.mem_cons.mp hp with rfl | hp2
            · exact absurd hq0key (hpu ▸ hall q0 hq0mem)
            · refine ⟨p, hp2, hpu, ?_⟩
              intro q hq
              exact hall q ((hm2mem q).mp hq).1
        · intro x
          show x ∈ q0.2 :: (classifyLoop rest (m.filter (fun q => q.1 ≠ o.user_id))).2.1 ↔ _
          constructor
          · intro hx
            rcases List.mem_cons.mp hx with rfl | hx2
            · exact ⟨q0, hq0mem, rfl, o, List.mem_cons_self o rest, hq0key.symm,
                fun hcon => hlev hcon.symm⟩
            · obtain ⟨q, hq, hq2, p, hp, hpu, hl⟩ := (ih3 x).mp hx2
              exact ⟨q, ((hm2mem q).mp hq).1, hq2, p, List.mem_cons_of_mem _ hp, hpu, hl⟩
          · rintro ⟨q, hq, hq2, p, hp, hpu, hl⟩
            rcases List.mem_cons.mp hp with rfl | hp2
            · have hqq0 : q = q0 := hqofm q hq hpu.symm
              rw [← hqq0, hq2]
              exact List.mem_cons_self _ _
            · have hne : q.1 ≠ o.user_id := by
                rw [← hpu]
                intro hcon
                exact hOu (hcon ▸ List.mem_map_of_mem _ hp2)
              exact List.mem_cons_of_mem _
                ((ih3 x).mpr ⟨q, (hm2mem q).mpr ⟨hq, hne⟩, hq2, p, hp2, hpu, hl⟩)
        · show ((q0.2 :: (classifyLoop rest (m.filter (fun q => q.1 ≠ o.user_id))).2.1).map
            (fun x => x.user_id)).Nodup
          rw [List.map_cons]
          rw [List.nodup_cons]
          refine ⟨?_, ih4⟩
          intro hcon
          obtain ⟨x, hx, hxu⟩ := List.mem_map.mp hcon
          obtain ⟨q, hq, hq2, p, hp, hpu, _⟩ := (ih3 x).mp hx
          have hqk : q.1 = q.2.user_id := hM2c q hq
          have hxuser : x.user_id = p.user_id := by
            rw [← hq2, ← hqk, hpu]
          have hq0user : q0.2.user_id = o.user_id := (hMc q0 hq0mem).symm ▸ hq0key
          apply hOu
          rw [← hq0user, ← hxu, hxuser]
          exact List.mem_map_of_mem _ hp
      · rw [if_neg hlev]
        have hleveq : q0.2.access_level = o.access_level := not_not.mp hlev
        refine ⟨?_, ?_, ?_, ih4⟩
        · intro q
          rw [ih1 q, hm2mem q]
          constructor
          · rintro ⟨⟨hm, hne⟩, hall⟩
            refine ⟨hm, ?_⟩
            intro p hp
            rcases List.mem_cons.mp hp with rfl | hp2
            · exact fun hcon => hne hcon.symm
            · exact hall p hp2
          · rintro ⟨hm, hall⟩
            exact ⟨⟨hm, fun hcon => hall o (List.mem_cons_self o rest) hcon.symm⟩,
              fun p hp => hall p (List.mem_cons_of_mem _ hp)⟩
        · intro u
          rw [ih2 u]
          constructor
          · rintro ⟨p, hp, hpu, hall⟩
            refine ⟨p, List.mem_cons_of_mem _ hp, hpu, ?_⟩
            intro q hq
            by_cases hkey : q.1 = o.user_id
            · rw [hkey]
              intro hcon
              apply hOu
              rw [hcon, ← hpu]
              exact List.mem_map_of_mem _ hp
            · exact hall q ((hm2mem q).mpr ⟨hq, hkey⟩)
          · rintro ⟨p, hp, hpu, hall⟩
            rcases List.mem_cons.mp hp with rfl | hp2
            · exact absurd hq0key (hpu ▸ hall q0 hq0mem)
            · refine ⟨p, hp2, hpu, ?_⟩
              intro q hq
              exact hall q ((hm2mem q).mp hq).1
        · intro x
          rw [ih3 x]
          constructor
          · rintro ⟨q, hq, hq2, p, hp, hpu, hl⟩
            exact ⟨q, ((hm2mem q).mp hq).1, hq2, p, List.mem_cons_of_mem _ hp, hpu, hl⟩
          · rintro ⟨q, hq, hq2, p, hp, hpu, hl⟩
            rcases List.mem_cons.mp hp with rfl | hp2
            · have hqq0 : q = q0 := hqofm q hq hpu.symm
              exfalso
              apply hl
              rw [← hq2, hqq0, hleveq]
            · have hne : q.1 ≠ o.user_id := by
                rw [← hpu]
                intro hcon
                exact hOu (hcon ▸ List.mem_map_of_mem _ hp2)
              exact ⟨q, (hm2mem q).mpr ⟨hq, hne⟩, hq2, p, hp2, hpu, hl⟩

/-- C4: after a successful ACL bulk replace the (user, access level) pairs
stored for the data id are exactly the new permission set: removed users'
rows are deleted, level-changed rows are updated in place, added users'
entries are inserted, and the transaction is the single transition of the
model.  The hypotheses are the stored uniqueness invariant on
(collection, data id, user), a parseable old set, and the per-user keying of
the requested set. -/
theorem C4_update_acls_replaces_set (db : Database) (coll dataId : String)
    (newPerms : List PermissionSchema) (owner : String) (now : Nat)
    (freshId : Nat → String) (old : List PermissionSchema)
    (hold : get_data_permissions db coll dataId = .ok old)
    (hOldNodup : ((aclRowsFor db coll dataId).map (fun r => r.user_id)).Nodup)
    (hNewNodup : (newPerms.map (fun p => p.user_id)).Nodup) :
    ∃ db2, update_acls db coll dataId newPerms owner now freshId = .ok db2 ∧
      ∀ (u : String) (lv : AccessLevel),
        (∃ r ∈ db2.acls, r.data_collection = coll ∧ r.data_id = dataId ∧
          r.user_id = u ∧ levelFromStr r.permission = .ok lv) ↔
        ∃ p ∈ newPerms, p.user_id = u ∧ p.access_level = lv := by
  obtain ⟨hCmap, hA, hB⟩ := collectPerms_spec dataId (aclRowsFor db coll dataId) old hold
  have hOldU : (old.map (fun p => p.user_id)).Nodup := by rw [hCmap]; exact hOldNodup
  have hm : hmFromIter newPerms = newPerms.map (fun p => (p.user_id, p)) :=
    hmFromIter_eq newPerms hNewNodup
  have hMk : ((hmFromIter newPerms).map Prod.fst).Nodup := by
    rw [hm, List.map_map]
    exact hNewNodup
  have hMc : ∀ q ∈ hmFromIter newPerms, q.1 = q.2.user_id := by
    rw [hm]
    intro q hq
    obtain ⟨p, hp, rfl⟩ := List.mem_map.mp hq
    rfl
  have hMmem : ∀ q ∈ hmFromIter newPerms, q.2 ∈ newPerms := by
    rw [hm]
    intro q hq
    obtain ⟨p, hp, rfl⟩ := List.mem_map.mp hq
    exact hp
  obtain ⟨hR1, hR2, hR3, hR4⟩ :=
    classifyLoop_spec old (hmFromIter newPerms) hOldU hMk hMc
  have heq : update_acls db coll dataId newPerms owner now freshId =
      .ok { db with
        acls :=
          ((classifyLoop old (hmFromIter newPerms)).2.1.foldl
            (fun acc p => acc.map (updAclRow coll dataId now p))
            ((classifyLoop old (hmFromIter newPerms)).1.foldl
              (fun acc uid => acc.filter (fun r =>
                ¬(r.data_collection = coll ∧ r.data_id = dataId ∧ r.user_id = uid)))
              db.acls)) ++
          insertRows coll dataId owner now freshId 0
            (classifyLoop old (hmFromIter newPerms)).2.2 } := by
    unfold update_acls
    rw [hold]
  refine ⟨_, heq, ?_⟩
  intro u lv
  have hacfmem : ∀ r : AclRow, r ∈ aclRowsFor db coll dataId ↔
      r ∈ db.acls ∧ r.data_collection = coll ∧ r.data_id = dataId := by
    intro r
    unfold aclRowsFor
    rw [List.mem_filter]
    simp
  constructor
  · rintro ⟨r, hrmem, hdc, hdi, huid, hparse⟩
    rcases List.mem_append.mp hrmem with hA2 | hI
    · rw [foldl_map_comm] at hA2
      obtain ⟨r0, hr0, hr0eq⟩ := List.mem_map.mp hA2
      obtain ⟨hfdc, hfdi, hfuid⟩ :=
        foldlUpd_fields coll dataId now (classifyLoop old (hmFromIter newPerms)).2.1 r0
      have hr0dc : r0.data_collection = coll := by rw [← hfdc, hr0eq]; exact hdc
      have hr0di : r0.data_id = dataId := by rw [← hfdi, hr0eq]; exact hdi
      have hr0uid : r0.user_id = u := by rw [← hfuid, hr0eq]; exact huid
      obtain ⟨hr0db, hnotdel⟩ := (foldl_delete_mem coll dataId _ db.acls r0).mp hr0
      have hr0acf : r0 ∈ aclRowsFor db coll dataId :=
        (hacfmem r0).mpr ⟨hr0db, hr0dc, hr0di⟩
      obtain ⟨pold, hpoldmem, hpolduser, hpoldparse⟩ := hB r0 hr0acf
      have hpoldu : pold.user_id = u := hpolduser.trans hr0uid
      have hunotdel : u ∉ (classifyLoop old (hmFromIter newPerms)).1 := by
        intro hu
        exact hnotdel ⟨hr0dc, hr0di, hr0uid ▸ hu⟩
      by_cases hup : ∃ pup ∈ (classifyLoop old (hmFromIter newPerms)).2.1,
          pup.user_id = u
      · obtain ⟨pup, hpupmem, hpupu⟩ := hup
        have happ := foldlUpd_match coll dataId now _ r0 pup hR4 hpupmem hr0dc hr0di
          (hr0uid.trans hpupu.symm)
        have hrperm : r.permission = levelToString pup.access_level := by
          rw [← hr0eq, happ]
        rw [hrperm, levelFromStr_levelToString] at hparse
        have hlv : pup.access_level = lv := Except.ok.inj hparse
        obtain ⟨q, hq, hq2, p, hp, hpu2, hplev⟩ := (hR3 pup).mp hpupmem
        exact ⟨pup, hq2 ▸ hMmem q hq, hpupu, hlv⟩
      · push_neg at hup
        have happ := foldlUpd_no_match coll dataId now _ r0 (fun p hp hcon =>
          (hup p hp) (hcon.trans hr0uid))
        have hreq : r = r0 := by rw [← hr0eq, happ]
        rw [hreq] at hparse
        rw [hparse] at hpoldparse
        have hlv : lv = pold.access_level := Except.ok.inj hpoldparse
        have hqin : ¬ (∀ q ∈ hmFromIter newPerms, q.1 ≠ u) := by
          intro hall
          exact hunotdel ((hR2 u).mpr ⟨pold, hpoldmem, hpoldu, hall⟩)
        push_neg at hqin
        obtain ⟨q, hq, hqu⟩ := hqin
        have hq2u : q.2.user_id = u := (hMc q hq).symm.trans hqu
        by_cases hlevne : q.2.access_level = pold.access_level
        · exact ⟨q.2, hMmem q hq, hq2u, by rw [hlevne, ← hlv]⟩
        · exfalso
          have hmem2 : q.2 ∈ (classifyLoop old (hmFromIter newPerms)).2.1 :=
            (hR3 q.2).mpr ⟨q, hq, rfl, pold, hpoldmem, hpoldu.trans hqu.symm,
              fun hcon => hlevne hcon.symm⟩
          exact (hup q.2 hmem2) hq2u
    · obtain ⟨q, hq, hfdc, hfdi, hfus, hfperm⟩ :=
        insertRows_mem coll dataId owner now freshId _ 0 r hI
      obtain ⟨hqm, hqold⟩ := (hR1 q).mp hq
      have hq2u : q.2.user_id = u := by rw [← hfus]; exact huid
      rw [hfperm, levelFromStr_levelToString] at hparse
      exact ⟨q.2, hMmem q hqm, hq2u, Except.ok.inj hparse⟩
  · rintro ⟨pnew, hpnewmem, hpnewu, hpnewlv⟩
    have hqm : (pnew.user_id, pnew) ∈ hmFromIter newPerms := by
      rw [hm]
      exact List.mem_map_of_mem _ hpnewmem
    by_cases holdu : ∃ pold ∈ old, pold.user_id = u
    · obtain ⟨pold, hpoldmem, hpoldu⟩ := holdu
      obtain ⟨r0, hr0acf, hr0user, hr0parse⟩ := hA pold hpoldmem
      obtain ⟨hr0db, hr0dc, hr0di⟩ := (hacfmem r0).mp hr0acf
      have hr0u : r0.user_id = u := hr0user.trans hpoldu
      have hunotdel : u ∉ (classifyLoop old (hmFromIter newPerms)).1 := by
        intro hu
        obtain ⟨p2, hp2, hp2u, hall⟩ := (hR2 u).mp hu
        exact (hall (pnew.user_id, pnew) hqm) hpnewu
      have hr0a1 : r0 ∈ (classifyLoop old (hmFromIter newPerms)).1.foldl
          (fun acc uid => acc.filter (fun r =>
            ¬(r.data_collection = coll ∧ r.data_id = dataId ∧ r.user_id = uid)))
          db.acls :=
        (foldl_delete_mem coll dataId _ db.acls r0).mpr
          ⟨hr0db, fun hcon => hunotdel (hr0u ▸ hcon.2.2)⟩
      by_cases hlev : pnew.access_level = pold.access_level
      · have hnoup : ∀ p ∈ (classifyLoop old (hmFromIter newPerms)).2.1,
            p.user_id ≠ r0.user_id := by
          intro p hp hcon
          obtain ⟨q, hq, hq2, p2, hp2, hp2u, hp2lev⟩ := (hR3 p).mp hp
          have hpq : p.user_id = q.1 := by rw [← hq2]; exact (hMc q hq).symm
          have hq1u : q.1 = u := by rw [← hpq, hcon, hr0u]
          have hqeq : q = (pnew.user_id, pnew) :=
            List.inj_on_of_nodup_map hMk hq hqm (by rw [hq1u]; exact hpnewu.symm)
          have hp2eq : p2 = pold :=
            List.inj_on_of_nodup_map hOldU hp2 hpoldmem
              (by rw [hp2u, hq1u, hpoldu])
          apply hp2lev
          rw [hp2eq, ← hq2, hqeq, ← hlev]
        have happ := foldlUpd_no_match coll dataId now _ r0 hnoup
        refine ⟨r0, List.mem_append.mpr (Or.inl ?_), hr0dc, hr0di, hr0u, ?_⟩
        · rw [foldl_map_comm]
          exact List.mem_map.mpr ⟨r0, hr0a1, happ⟩
        · rw [hr0parse, ← hlev, hpnewlv]
      · have hupmem : pnew ∈ (classifyLoop old (hmFromIter newPerms)).2.1 :=
          (hR3 pnew).mpr ⟨(pnew.user_id, pnew), hqm, rfl, pold, hpoldmem,
            hpoldu.trans hpnewu.symm, fun hcon => hlev hcon.symm⟩
        have happ := foldlUpd_match coll dataId now _ r0 pnew hR4 hupmem hr0dc hr0di
          (hr0u.trans hpnewu.symm)
        refine ⟨{ r0 with
            permission := levelToString pnew.access_level,
            updated_at := now }, List.mem_append.mpr (Or.inl ?_), hr0dc, hr0di, hr0u, ?_⟩
        · rw [foldl_map_comm]
          exact List.mem_map.mpr ⟨r0, hr0a1, happ⟩
        · show levelFromStr (levelToString pnew.access_level) = .ok lv
          rw [levelFromStr_levelToString, hpnewlv]
    · push_neg at holdu
      have hqrem : (pnew.user_id, pnew) ∈ (classifyLoop old (hmFromIter newPerms)).2.2 :=
        (hR1 _).mpr ⟨hqm, fun p hp hcon => (holdu p hp) (hcon.trans hpnewu)⟩
      obtain ⟨r, hr, hfdc, hfdi, hfus, hfperm⟩ :=
        insertRows_exists coll dataId owner now freshId _ 0 _ hqrem
      refine ⟨r, List.mem_append.mpr (Or.inr hr), hfdc, hfdi,
        hfus.trans hpnewu, ?_⟩
      rw [hfperm, levelFromStr_levelToString, hpnewlv]

/-- Witness for C4: replacing the grants of item X, starting from B:read and
C:write, with B:write and D:read. -/
theorem C4_update_acls_replaces_set_witness :
    ∃ db2, update_acls dbAclReplace "repo" "X" newPermsBD "A" 9
        (fun n => toString n) = .ok db2 ∧
      ∀ (u : String) (lv : AccessLevel),
        (∃ r ∈ db2.acls, r.data_collection = "repo" ∧ r.data_id = "X" ∧
          r.user_id = u ∧ levelFromStr r.permission = .ok lv) ↔
        ∃ p ∈ newPermsBD, p.user_id = u ∧ p.access_level = lv :=
  C4_update_acls_replaces_set dbAclReplace "repo" "X" newPermsBD "A" 9
    (fun n => toString n)
    [{ data_id := "X", user_id := "B", access_level := .Read },
     { data_id := "X", user_id := "C", access_level := .Write }]
    rfl (by decide) (by decide)

end Syncstore
